import Mathlib

/-!
# data_sharing chaincode: record lifecycle over a key-value ledger

A shallow embedding of `chaincode/data_sharing/contract.go` and properties of its five
operations `publishData`, `showDataInfo`, `showPendingRequests`, `requestData` and
`handleRequest`.

## The model

* Go `string` and `[]byte` values are Lean `String`s.  In the main development a `String`
  is the text of a well-formed UTF-8 string.  The section "Go strings byte by byte" reads a
  `String` as an arbitrary byte sequence and gives `strings.ToLower`, `encoding/json`,
  `publishData` and `requestData` on bytes; on well-formed bytes they are the ones on texts.
* `strings.ToLower` lower-cases every rune through the case tables of package `unicode`;
  `json.Marshal` escapes string fields the way `encoding/json` does and leaves out
  unexported struct fields.
* JSON documents are read by `parseDoc`, which accepts the objects all of whose members are
  strings, the shape of every record this chaincode writes.
* The chaincode stub is a ledger (a finite map from keys to bytes) together with `Faults`,
  which says which adapter calls fail.  `Stub.reliable l` is the stub over ledger `l` none of
  whose calls fail.  An operation returns its response and the stub it leaves behind.
* A rich query is answered from its text: the text is parsed as
  `\x7b"selector": \x7b...\x7d\x7d`, and an entry matches when its bytes are a document whose
  fields have the values the selector asks for.  A text that does not parse is an error.
* `fmt.Println` and `fmt.Printf` touch neither the ledger nor the response and are dropped.
-/

namespace DataSharing

/-! ## Characters and strings -/

/-- The double quote character. -/
def dq : Char := Char.ofNat 34

/-- The backslash character. -/
def bs : Char := Char.ofNat 92

/-- Lower-casing of one ASCII character: `A`..`Z` are moved to `a`..`z`. -/
def lowerChar (c : Char) : Char :=
  if 65 ≤ c.toNat ∧ c.toNat ≤ 90 then Char.ofNat (c.toNat + 32) else c

/-- The lower-case mappings of the runes above ASCII in the case tables of package
`unicode` (`unicode.CaseRanges`; the simple lower-case mappings of the Unicode Character
Database, version 14.0, to which version 15.0 adds none).  An entry `(lo, hi, stride, low)`
says that the runes `lo`, `lo + stride`, ... up to `hi` are mapped to `low`,
`low + stride`, ... -/
def unicode.CaseRanges : List (Nat × Nat × Nat × Nat) :=
  [(192, 214, 1, 224), (216, 222, 1, 248), (256, 302, 2, 257), (304, 304, 1, 105),
   (306, 310, 2, 307), (313, 327, 2, 314), (330, 374, 2, 331), (376, 376, 1, 255),
   (377, 381, 2, 378), (385, 385, 1, 595), (386, 388, 2, 387), (390, 390, 1, 596),
   (391, 391, 1, 392), (393, 394, 1, 598), (395, 395, 1, 396), (398, 398, 1, 477),
   (399, 399, 1, 601), (400, 400, 1, 603), (401, 401, 1, 402), (403, 403, 1, 608),
   (404, 404, 1, 611), (406, 406, 1, 617), (407, 407, 1, 616), (408, 408, 1, 409),
   (412, 412, 1, 623), (413, 413, 1, 626), (415, 415, 1, 629), (416, 420, 2, 417),
   (422, 422, 1, 640), (423, 423, 1, 424), (425, 425, 1, 643), (428, 428, 1, 429),
   (430, 430, 1, 648), (431, 431, 1, 432), (433, 434, 1, 650), (435, 437, 2, 436),
   (439, 439, 1, 658), (440, 440, 1, 441), (444, 444, 1, 445), (452, 452, 1, 454),
   (453, 453, 1, 454), (455, 455, 1, 457), (456, 456, 1, 457), (458, 458, 1, 460),
   (459, 475, 2, 460), (478, 494, 2, 479), (497, 497, 1, 499), (498, 500, 2, 499),
   (502, 502, 1, 405), (503, 503, 1, 447), (504, 542, 2, 505), (544, 544, 1, 414),
   (546, 562, 2, 547), (570, 570, 1, 11365), (571, 571, 1, 572), (573, 573, 1, 410),
   (574, 574, 1, 11366), (577, 577, 1, 578), (579, 579, 1, 384), (580, 580, 1, 649),
   (581, 581, 1, 652), (582, 590, 2, 583), (880, 882, 2, 881), (886, 886, 1, 887),
   (895, 895, 1, 1011), (902, 902, 1, 940), (904, 906, 1, 941), (908, 908, 1, 972),
   (910, 911, 1, 973), (913, 929, 1, 945), (931, 939, 1, 963), (975, 975, 1, 983),
   (984, 1006, 2, 985), (1012, 1012, 1, 952), (1015, 1015, 1, 1016), (1017, 1017, 1, 1010),
   (1018, 1018, 1, 1019), (1021, 1023, 1, 891), (1024, 1039, 1, 1104), (1040, 1071, 1, 1072),
   (1120, 1152, 2, 1121), (1162, 1214, 2, 1163), (1216, 1216, 1, 1231), (1217, 1229, 2, 1218),
   (1232, 1326, 2, 1233), (1329, 1366, 1, 1377), (4256, 4293, 1, 11520), (4295, 4295, 1, 11559),
   (4301, 4301, 1, 11565), (5024, 5103, 1, 43888), (5104, 5109, 1, 5112), (7312, 7354, 1, 4304),
   (7357, 7359, 1, 4349), (7680, 7828, 2, 7681), (7838, 7838, 1, 223), (7840, 7934, 2, 7841),
   (7944, 7951, 1, 7936), (7960, 7965, 1, 7952), (7976, 7983, 1, 7968), (7992, 7999, 1, 7984),
   (8008, 8013, 1, 8000), (8025, 8031, 2, 8017), (8040, 8047, 1, 8032), (8072, 8079, 1, 8064),
   (8088, 8095, 1, 8080), (8104, 8111, 1, 8096), (8120, 8121, 1, 8112), (8122, 8123, 1, 8048),
   (8124, 8124, 1, 8115), (8136, 8139, 1, 8050), (8140, 8140, 1, 8131), (8152, 8153, 1, 8144),
   (8154, 8155, 1, 8054), (8168, 8169, 1, 8160), (8170, 8171, 1, 8058), (8172, 8172, 1, 8165),
   (8184, 8185, 1, 8056), (8186, 8187, 1, 8060), (8188, 8188, 1, 8179), (8486, 8486, 1, 969),
   (8490, 8490, 1, 107), (8491, 8491, 1, 229), (8498, 8498, 1, 8526), (8544, 8559, 1, 8560),
   (8579, 8579, 1, 8580), (9398, 9423, 1, 9424), (11264, 11311, 1, 11312),
   (11360, 11360, 1, 11361), (11362, 11362, 1, 619), (11363, 11363, 1, 7549),
   (11364, 11364, 1, 637), (11367, 11371, 2, 11368), (11373, 11373, 1, 593),
   (11374, 11374, 1, 625), (11375, 11375, 1, 592), (11376, 11376, 1, 594),
   (11378, 11378, 1, 11379), (11381, 11381, 1, 11382), (11390, 11391, 1, 575),
   (11392, 11490, 2, 11393), (11499, 11501, 2, 11500), (11506, 11506, 1, 11507),
   (42560, 42604, 2, 42561), (42624, 42650, 2, 42625), (42786, 42798, 2, 42787),
   (42802, 42862, 2, 42803), (42873, 42875, 2, 42874), (42877, 42877, 1, 7545),
   (42878, 42886, 2, 42879), (42891, 42891, 1, 42892), (42893, 42893, 1, 613),
   (42896, 42898, 2, 42897), (42902, 42920, 2, 42903), (42922, 42922, 1, 614),
   (42923, 42923, 1, 604), (42924, 42924, 1, 609), (42925, 42925, 1, 620),
   (42926, 42926, 1, 618), (42928, 42928, 1, 670), (42929, 42929, 1, 647),
   (42930, 42930, 1, 669), (42931, 42931, 1, 43859), (42932, 42946, 2, 42933),
   (42948, 42948, 1, 42900), (42949, 42949, 1, 642), (42950, 42950, 1, 7566),
   (42951, 42953, 2, 42952), (42960, 42960, 1, 42961), (42966, 42968, 2, 42967),
   (42997, 42997, 1, 42998), (65313, 65338, 1, 65345), (66560, 66599, 1, 66600),
   (66736, 66771, 1, 66776), (66928, 66938, 1, 66967), (66940, 66954, 1, 66979),
   (66956, 66962, 1, 66995), (66964, 66965, 1, 67003), (68736, 68786, 1, 68800),
   (71840, 71871, 1, 71872), (93760, 93791, 1, 93792), (125184, 125217, 1, 125218)]

/-- Go `unicode.ToLower`: ASCII runes are handled first, the others are looked up in
the case tables and left as they are when no entry holds them. -/
def unicode.ToLower (r : Char) : Char :=
  if r.toNat ≤ 127 then lowerChar r
  else
    match unicode.CaseRanges.find?
        (fun e => e.1 ≤ r.toNat && r.toNat ≤ e.2.1 && (r.toNat - e.1) % e.2.2.1 == 0) with
    | some e => Char.ofNat (e.2.2.2 + (r.toNat - e.1))
    | none => r

/-- Go `strings.ToLower` on a text: every rune is replaced by its lower-case rune.  (The
two paths of the Go function, for ASCII-only strings and through `strings.Map`, agree
with this on every text.) -/
def strings.ToLower (s : String) : String := ⟨s.data.map unicode.ToLower⟩

/-! ## encoding/json: string literals -/

/-- The table `hex` of `encoding/json`. -/
def hexDigit (n : Nat) : Char := "0123456789abcdef".data.getD n '0'

/-- Value of a hexadecimal digit, either case. -/
def hexVal (c : Char) : Option Nat :=
  if 48 ≤ c.toNat ∧ c.toNat ≤ 57 then some (c.toNat - 48)
  else if 97 ≤ c.toNat ∧ c.toNat ≤ 102 then some (c.toNat - 87)
  else if 65 ≤ c.toNat ∧ c.toNat ≤ 70 then some (c.toNat - 55)
  else none

/-- How `json.Marshal` writes one character of a string (HTML escaping on): quote and
backslash get a backslash, newline, carriage return and tab their short escapes, the other
control characters and `<`, `>`, `&` a `\u00XX` escape, U+2028 and U+2029 a `\u202X`
escape, and everything else is written as it is. -/
def escapeChar (c : Char) : List Char :=
  if c = dq ∨ c = bs then [bs, c]
  else if c.toNat = 10 then [bs, 'n']
  else if c.toNat = 13 then [bs, 'r']
  else if c.toNat = 9 then [bs, 't']
  else if c.toNat < 32 ∨ c = '<' ∨ c = '>' ∨ c = '&' then
    [bs, 'u', '0', '0', hexDigit (c.toNat / 16), hexDigit (c.toNat % 16)]
  else if c.toNat = 8232 ∨ c.toNat = 8233 then
    [bs, 'u', '2', '0', '2', hexDigit (c.toNat % 16)]
  else [c]

/-- A JSON string literal for `s`. -/
def encodeString (s : String) : List Char := dq :: (s.data.flatMap escapeChar ++ [dq])

/-- The number written by four hexadecimal digits. -/
def hex4 (a b c d : Char) : Option Nat :=
  match hexVal a, hexVal b, hexVal c, hexVal d with
  | some x, some y, some z, some w => some (((x * 16 + y) * 16 + z) * 16 + w)
  | _, _, _, _ => none

/-- The character named by a one-letter escape. -/
def unescape (e : Char) : Option Char :=
  if e = dq ∨ e = bs ∨ e = '/' then some e
  else if e = 'b' then some (Char.ofNat 8)
  else if e = 'f' then some (Char.ofNat 12)
  else if e = 'n' then some (Char.ofNat 10)
  else if e = 'r' then some (Char.ofNat 13)
  else if e = 't' then some (Char.ofNat 9)
  else none

/-- A decoded unit of a string literal: a character, or the number of a `\uXXXX` escape
(which may be half of a surrogate pair). -/
inductive Unit16 where
  | chr (c : Char)
  | esc (n : Nat)
deriving DecidableEq, Repr

/-- The unit that reading back the escaped form of `c` gives: the number of the escape
for the characters written as `\uXXXX`, the character itself for all others. -/
def unitOf (c : Char) : Unit16 :=
  if c.toNat < 32 ∧ c.toNat ≠ 10 ∧ c.toNat ≠ 13 ∧ c.toNat ≠ 9 ∨ c = '<' ∨ c = '>' ∨ c = '&'
    ∨ c.toNat = 8232 ∨ c.toNat = 8233 then Unit16.esc c.toNat else Unit16.chr c

/-- Reads the body of a string literal, the opening quote already consumed, up to its
closing quote; gives the units read and the input that follows the closing quote.
Raw control characters and unknown escapes are rejected. -/
def scanUnits : List Char → Option (List Unit16 × List Char)
  | [] => none
  | c :: cs =>
    if c = dq then some ([], cs)
    else if c = bs then
      match cs with
      | [] => none
      | e :: cs1 =>
        if e = 'u' then
          match cs1 with
          | a :: b :: c2 :: d :: cs2 =>
            match hex4 a b c2 d with
            | none => none
            | some n => (scanUnits cs2).map (fun r => (Unit16.esc n :: r.1, r.2))
          | _ => none
        else
          match unescape e with
          | none => none
          | some x => (scanUnits cs1).map (fun r => (Unit16.chr x :: r.1, r.2))
    else if c.toNat < 32 then none
    else (scanUnits cs).map (fun r => (Unit16.chr c :: r.1, r.2))

/-- UTF-16 surrogate range. -/
def isSurrogate (n : Nat) : Bool := 55296 ≤ n && n < 57344

/-- The character of a single `\uXXXX` escape: the replacement character for a lone surrogate. -/
def escChar (n : Nat) : Char := if isSurrogate n then Char.ofNat 65533 else Char.ofNat n

/-- Turns units into characters, joining a high surrogate escape immediately followed by a
low surrogate escape into one character. -/
def joinUnits : List Unit16 → List Char
  | [] => []
  | Unit16.chr c :: us => c :: joinUnits us
  | [Unit16.esc n] => [escChar n]
  | Unit16.esc n :: Unit16.chr c :: us => escChar n :: c :: joinUnits us
  | Unit16.esc n :: Unit16.esc m :: us =>
    if isSurrogate n ∧ n < 56320 ∧ isSurrogate m ∧ 56320 ≤ m then
      Char.ofNat (65536 + (n - 55296) * 1024 + (m - 56320)) :: joinUnits us
    else escChar n :: joinUnits (Unit16.esc m :: us)

/-- Decodes a string literal whose opening quote is consumed; gives the text and the rest. -/
def scanString (cs : List Char) : Option (List Char × List Char) :=
  (scanUnits cs).map (fun r => (joinUnits r.1, r.2))

/-- A text that stands for itself between the double quotes of a string literal: it
holds no double quote, no backslash and no control character. -/
def plainText (s : String) : Prop := ∀ c ∈ s.data, c ≠ dq ∧ c ≠ bs ∧ 32 ≤ c.toNat

/-! ## encoding/json: documents whose members are strings -/

/-- JSON white space: space, tab, line feed, carriage return. -/
def isWs (c : Char) : Bool := c == ' ' || c.toNat == 9 || c.toNat == 10 || c.toNat == 13

/-- Drops leading JSON white space. -/
def skipWs : List Char → List Char
  | [] => []
  | c :: cs => if isWs c then skipWs cs else c :: cs

/-- Consumes white space and then exactly the character `c`. -/
def expect (c : Char) (cs : List Char) : Option (List Char) :=
  match skipWs cs with
  | [] => none
  | x :: r => if x = c then some r else none

/-- A string literal, possibly after white space. -/
def scanQuoted (cs : List Char) : Option (List Char × List Char) :=
  match expect dq cs with
  | none => none
  | some r => scanString r

/-- One member `"key": "value"`. -/
def scanMember (cs : List Char) : Option ((String × String) × List Char) :=
  match scanQuoted cs with
  | none => none
  | some (k, r1) =>
    match expect ':' r1 with
    | none => none
    | some r2 =>
      match scanQuoted r2 with
      | none => none
      | some (v, r3) => some ((String.mk k, String.mk v), r3)

/-- The members of an object up to and including its closing brace; `fuel` bounds the
number of members. -/
def scanMembers : Nat → List Char → Option (List (String × String) × List Char)
  | 0, _ => none
  | fuel + 1, cs =>
    match scanMember cs with
    | none => none
    | some (m, r1) =>
      match skipWs r1 with
      | [] => none
      | c :: r2 =>
        if c = ',' then (scanMembers fuel r2).map (fun p => (m :: p.1, p.2))
        else if c = Char.ofNat 125 then some ([m], r2)
        else none

/-- An object all of whose members are strings; gives the members in order and the rest
of the input.  A member takes at least five characters, so the length of the input is
enough fuel. -/
def scanObject (cs : List Char) : Option (List (String × String) × List Char) :=
  match expect (Char.ofNat 123) cs with
  | none => none
  | some r =>
    match expect (Char.ofNat 125) r with
    | some r1 => some ([], r1)
    | none => scanMembers r.length r

/-- The members of a JSON document all of whose members are strings (the only documents
this chaincode writes); `none` for any other input. -/
def parseDoc (b : String) : Option (List (String × String)) :=
  match scanObject b.data with
  | none => none
  | some (ms, r) => if skipWs r = [] then some ms else none

/-- The value of member `k` of a document; a later member of the same name wins. -/
def docField (ms : List (String × String)) (k : String) : Option String :=
  (ms.reverse.find? (fun m => m.1 == k)).map Prod.snd

/-- Members written by `json.Marshal` for a struct, separated by commas. -/
def encodeMembers : List (String × String) → List Char
  | [] => []
  | [m] => encodeString m.1 ++ ':' :: encodeString m.2
  | m :: ms => encodeString m.1 ++ ':' :: encodeString m.2 ++ ',' :: encodeMembers ms

/-- The object written by `json.Marshal` for a struct with the given exported fields. -/
def encodeObject (ms : List (String × String)) : String :=
  String.mk (Char.ofNat 123 :: (encodeMembers ms ++ [Char.ofNat 125]))

/-! ## Records -/

/-- The Go struct `data`; all six fields are exported and carry a `json` tag. -/
structure data where
  ObjectType : String
  Name : String
  Content : String
  Date : String
  Time : String
  Owner : String
deriving DecidableEq, Repr

/-- The Go struct `request_data`; all four fields are exported and carry a `json` tag. -/
structure request_data where
  ObjectType : String
  Name : String
  DataTxid : String
  Requestor : String
deriving DecidableEq, Repr

set_option linter.dupNamespace false in
/-- The Go struct `reply`.  Its last field is spelled `reply`, in lower case, so it is
not exported, although it carries the tag `json:"reply"`. -/
structure reply where
  ObjectType : String
  Name : String
  RequestTxid : String
  reply : String
deriving DecidableEq, Repr

/-- What `json.Marshal` writes for a `data` value: its exported fields under their tags,
in declaration order. -/
def json.Marshal_data (d : data) : String :=
  encodeObject [("docType", d.ObjectType), ("name", d.Name), ("content", d.Content),
    ("date", d.Date), ("time", d.Time), ("owner", d.Owner)]

/-- What `json.Marshal` writes for a `request_data` value. -/
def json.Marshal_request_data (d : request_data) : String :=
  encodeObject [("docType", d.ObjectType), ("name", d.Name), ("datatxid", d.DataTxid),
    ("requestor", d.Requestor)]

/-- What `json.Marshal` writes for a `reply` value.  `encoding/json` only sees exported
fields, so the field `reply` is not written. -/
def json.Marshal_reply (d : reply) : String :=
  encodeObject [("docType", d.ObjectType), ("name", d.Name), ("requesttxid", d.RequestTxid)]

/-- A struct field after `json.Unmarshal`: the member of that name, or the zero value. -/
def fieldOr (ms : List (String × String)) (k : String) : String := (docField ms k).getD ""

/-- What `json.Unmarshal` reads into a `data` value. -/
def json.Unmarshal_data (b : String) : Option data :=
  (parseDoc b).map (fun ms => ⟨fieldOr ms "docType", fieldOr ms "name", fieldOr ms "content",
    fieldOr ms "date", fieldOr ms "time", fieldOr ms "owner"⟩)

/-- What `json.Unmarshal` reads into a `request_data` value. -/
def json.Unmarshal_request_data (b : String) : Option request_data :=
  (parseDoc b).map (fun ms => ⟨fieldOr ms "docType", fieldOr ms "name", fieldOr ms "datatxid",
    fieldOr ms "requestor"⟩)

/-- What `json.Unmarshal` reads into a `reply` value.  The unexported field `reply` cannot
be set by `encoding/json` and keeps its zero value. -/
def json.Unmarshal_reply (b : String) : Option reply :=
  (parseDoc b).map (fun ms => ⟨fieldOr ms "docType", fieldOr ms "name",
    fieldOr ms "requesttxid", ""⟩)

/-! ## The ledger and the chaincode stub -/

/-- A key with the bytes stored under it (`queryresult.KV`). -/
structure KV where
  Key : String
  Value : String
deriving DecidableEq, Repr

/-- Modelled from the spec: the world state of the ledger host, a finite map from keys
to stored bytes, kept as a list of entries without repeated keys. -/
structure Ledger where
  entries : List KV
  nodup : (entries.map KV.Key).Nodup

/-- The ledger with no entries. -/
def Ledger.empty : Ledger := ⟨[], List.nodup_nil⟩

/-- The bytes stored at `key`, if any. -/
def Ledger.get (l : Ledger) (key : String) : Option String :=
  (l.entries.find? (fun e => e.Key == key)).map KV.Value

/-- The ledger without `key`. -/
def Ledger.del (l : Ledger) (key : String) : Ledger :=
  ⟨l.entries.filter (fun e => e.Key != key),
    List.Nodup.sublist (List.Sublist.map _ (List.filter_sublist _)) l.nodup⟩

/-- The ledger with `value` stored at `key`, replacing what was there. -/
def Ledger.put (l : Ledger) (key value : String) : Ledger :=
  ⟨⟨key, value⟩ :: (l.del key).entries, by
    rw [List.map_cons, List.nodup_cons]
    refine ⟨?_, (l.del key).nodup⟩
    simp [Ledger.del, List.mem_map, List.mem_filter]⟩

/-- Modelled from the spec: which calls of the ledger adapter fail, and with what error.
`GetState key`, `PutState key value`, `DelState key` and `GetQueryResult query` give the
error of that call, if it fails; `Next query i` gives the error of the `i`-th step of the
iterator opened by `query`, if that step fails. -/
structure Faults where
  GetState : String → Option String
  PutState : String → String → Option String
  DelState : String → Option String
  GetQueryResult : String → Option String
  Next : String → Nat → Option String

/-- An adapter none of whose calls fail. -/
def Faults.none : Faults :=
  ⟨fun _ => Option.none, fun _ _ => Option.none, fun _ => Option.none, fun _ => Option.none,
    fun _ _ => Option.none⟩

/-- An adapter whose every delete fails with `err`, and nothing else. -/
def Faults.deleteFails (err : String) : Faults :=
  ⟨fun _ => Option.none, fun _ _ => Option.none, fun _ => some err, fun _ => Option.none,
    fun _ _ => Option.none⟩

/-- An adapter that fails, with `err`, to answer the query `query`, and nothing else. -/
def Faults.queryFails (query err : String) : Faults :=
  ⟨fun _ => Option.none, fun _ _ => Option.none, fun _ => Option.none,
    fun q => if q = query then some err else Option.none, fun _ _ => Option.none⟩

/-- An adapter whose iterator for the query `query` fails, with `err`, at step `i`, and
nothing else. -/
def Faults.stepFails (query : String) (i : Nat) (err : String) : Faults :=
  ⟨fun _ => Option.none, fun _ _ => Option.none, fun _ => Option.none, fun _ => Option.none,
    fun q j => if q = query ∧ j = i then some err else Option.none⟩

/-- Modelled from the spec: the chaincode stub (`shim.ChaincodeStubInterface`), the ledger
adapter of one invocation: the ledger it works on and the failures of its calls. -/
structure Stub where
  faults : Faults
  ledger : Ledger

/-- A stub over ledger `l` whose calls do not fail. -/
def Stub.reliable (l : Ledger) : Stub := ⟨Faults.none, l⟩

/-- Modelled from the spec: `get(key) -> bytes|absent`; `nil` bytes are `none`. -/
def Stub.GetState (stub : Stub) (key : String) : Except String (Option String) :=
  match stub.faults.GetState key with
  | some err => .error err
  | none => .ok (stub.ledger.get key)

/-- Modelled from the spec: `put(key, bytes)`. -/
def Stub.PutState (stub : Stub) (key value : String) : Except String Stub :=
  match stub.faults.PutState key value with
  | some err => .error err
  | none => .ok ⟨stub.faults, stub.ledger.put key value⟩

/-- Modelled from the spec: `delete(key)`. -/
def Stub.DelState (stub : Stub) (key : String) : Except String Stub :=
  match stub.faults.DelState key with
  | some err => .error err
  | none => .ok ⟨stub.faults, stub.ledger.del key⟩

/-- The selector of a rich query `\x7b"selector": \x7b...\x7d\x7d` whose selector is a
conjunction of equalities between a field and a string; `none` for any other text. -/
def parseQuery (query : String) : Option (List (String × String)) :=
  match expect (Char.ofNat 123) query.data with
  | none => none
  | some r0 =>
    match scanQuoted r0 with
    | none => none
    | some (k, r1) =>
      match expect ':' r1 with
      | none => none
      | some r2 =>
        match scanObject r2 with
        | none => none
        | some (sel, r3) =>
          match expect (Char.ofNat 125) r3 with
          | none => none
          | some r4 => if k = "selector".data ∧ skipWs r4 = [] then some sel else none

/-- Whether the stored bytes are a document in which every field of the selector has the
value the selector asks for. -/
def matchesSelector (sel : List (String × String)) (value : String) : Bool :=
  match parseDoc value with
  | none => false
  | some ms => sel.all (fun c => docField ms c.1 == some c.2)

/-- The steps of an iterator over `kvs`, numbered from `i`: a step gives its entry unless
the adapter fails there. -/
def iterate (faults : Faults) (query : String) : Nat → List KV → List (Except String KV)
  | _, [] => []
  | i, kv :: kvs =>
    (match faults.Next query i with
      | some err => Except.error err
      | none => Except.ok kv) :: iterate faults query (i + 1) kvs

/-- Modelled from the spec: `queryByAttributes(filter) -> iterator of (key, bytes)`, the
filter being a conjunction of equality predicates.  A query that is not such a filter is
answered by an error. -/
def Stub.GetQueryResult (stub : Stub) (query : String) :
    Except String (List (Except String KV)) :=
  match stub.faults.GetQueryResult query with
  | some err => .error err
  | none =>
    match parseQuery query with
    | none => .error "invalid query"
    | some sel =>
      .ok (iterate stub.faults query 0 (stub.ledger.entries.filter (fun e => matchesSelector sel e.Value)))

/-! ## Responses -/

/-- The response of an invocation (`pb.Response`). -/
structure pb.Response where
  Status : Nat
  Message : String
  Payload : Option String
deriving DecidableEq, Repr

/-- Status code `shim.OK`. -/
def shim.OK : Nat := 200

/-- Status code `shim.ERROR`. -/
def shim.ERROR : Nat := 500

/-- Go `shim.Success(payload)`. -/
def shim.Success (payload : Option String) : pb.Response := ⟨shim.OK, "", payload⟩

/-- Go `shim.Error(msg)`. -/
def shim.Error (msg : String) : pb.Response := ⟨shim.ERROR, msg, none⟩

/-- The messages with which the operations reject an argument list, for its length or
for an empty argument. -/
def argumentErrors : List String :=
  ["Incorrect number of arguments. Expecting 5",
   "Incorrect number of arguments. Expecting name of the marble to query",
   "Incorrect number of arguments. Expecting 1",
   "Incorrect number of arguments. Expecting 3",
   "1st argument must be a non-empty string",
   "2nd argument must be a non-empty string",
   "3rd argument must be a non-empty string",
   "4th argument must be a non-empty string"]

/-- The response is an error about the arguments. -/
def isArgumentError (r : pb.Response) : Prop :=
  r.Status = shim.ERROR ∧ r.Message ∈ argumentErrors

/-! ## The operations of the chaincode -/

/-- Go `publishData`: creates a `data` record at key `args[0]` unless the key holds a value. -/
def publishData (stub : Stub) (args : List String) : pb.Response × Stub :=
  match args with
  | [a0, a1, a2, a3, a4] =>
    if a0.length ≤ 0 then (shim.Error "1st argument must be a non-empty string", stub)
    else if a1.length ≤ 0 then (shim.Error "2nd argument must be a non-empty string", stub)
    else if a2.length ≤ 0 then (shim.Error "3rd argument must be a non-empty string", stub)
    else if a3.length ≤ 0 then (shim.Error "4th argument must be a non-empty string", stub)
    else if a4.length ≤ 0 then (shim.Error "4th argument must be a non-empty string", stub)
    else
      let name := a0
      let content := a1
      let date := strings.ToLower a2
      let time := strings.ToLower a3
      let owner := strings.ToLower a4
      match stub.GetState name with
      | .error err => (shim.Error ("Failed to get data: " ++ err), stub)
      | .ok (some _) => (shim.Error ("This data already exists: " ++ name), stub)
      | .ok none =>
        let objectType := "data"
        let dataJSONasBytes := json.Marshal_data ⟨objectType, name, content, date, time, owner⟩
        match stub.PutState name dataJSONasBytes with
        | .error err => (shim.Error err, stub)
        | .ok stub1 => (shim.Success none, stub1)
  | _ => (shim.Error "Incorrect number of arguments. Expecting 5", stub)

/-- Go `showDataInfo`: the bytes stored at key `args[0]`. -/
def showDataInfo (stub : Stub) (args : List String) : pb.Response × Stub :=
  match args with
  | [name] =>
    match stub.GetState name with
    | .error _ =>
      (shim.Error ("\x7b\"Error\":\"Failed to get state for " ++ name ++ "\"\x7d"), stub)
    | .ok none =>
      (shim.Error ("\x7b\"Error\":\"Marble does not exist: " ++ name ++ "\"\x7d"), stub)
    | .ok (some valAsbytes) => (shim.Success (some valAsbytes), stub)
  | _ => (shim.Error "Incorrect number of arguments. Expecting name of the marble to query", stub)

/-- Go `requestData`: writes a `request_data` record at key `args[0]`. -/
def requestData (stub : Stub) (args : List String) : pb.Response × Stub :=
  match args with
  | [a0, a1, a2] =>
    if a0.length ≤ 0 then (shim.Error "1st argument must be a non-empty string", stub)
    else if a1.length ≤ 0 then (shim.Error "2nd argument must be a non-empty string", stub)
    else if a2.length ≤ 0 then (shim.Error "3rd argument must be a non-empty string", stub)
    else
      let name := a0
      let datatxid := a1
      let requestor := strings.ToLower a2
      match stub.GetState datatxid with
      | .error err => (shim.Error ("Failed to get data: " ++ err), stub)
      | .ok _ =>
        let objectType := "request"
        let dataJSONasBytes := json.Marshal_request_data ⟨objectType, name, datatxid, requestor⟩
        match stub.PutState name dataJSONasBytes with
        | .error err => (shim.Error err, stub)
        | .ok stub1 => (shim.Success none, stub1)
  | _ => (shim.Error "Incorrect number of arguments. Expecting 3", stub)

/-- Go `handleRequest`: writes a `reply` record at key `args[0]`, then deletes key `args[1]`. -/
def handleRequest (stub : Stub) (args : List String) : pb.Response × Stub :=
  match args with
  | [a0, a1, a2] =>
    if a0.length ≤ 0 then (shim.Error "1st argument must be a non-empty string", stub)
    else if a1.length ≤ 0 then (shim.Error "2nd argument must be a non-empty string", stub)
    else if a2.length ≤ 0 then (shim.Error "2nd argument must be a non-empty string", stub)
    else
      let name := a0
      let requesttxid := a1
      let response := a2
      match stub.GetState requesttxid with
      | .error err => (shim.Error ("Failed to get request: " ++ err), stub)
      | .ok _ =>
        let objectType := "response"
        let dataJSONasBytes := json.Marshal_reply ⟨objectType, name, requesttxid, response⟩
        match stub.PutState name dataJSONasBytes with
        | .error err => (shim.Error err, stub)
        | .ok stub1 =>
          match stub1.DelState requesttxid with
          | .error err => (shim.Error ("Failed to delete request:" ++ err), stub1)
          | .ok stub2 => (shim.Success none, stub2)
  | _ => (shim.Error "Incorrect number of arguments. Expecting 3", stub)

/-- The inner loop of `getQueryListForRequests` over one iterator; the state is the buffer
and the flag `bArrayMemberAlreadyWritten`. -/
def writeMembers : List (Except String KV) → String × Bool → Except String (String × Bool)
  | [], st => .ok st
  | .error err :: _, _ => .error err
  | .ok queryResponse :: rest, (buffer, bArrayMemberAlreadyWritten) =>
    let buffer := if bArrayMemberAlreadyWritten = true then buffer ++ "," else buffer
    let buffer := buffer ++ "\x7b\"Key\":"
    let buffer := buffer ++ "\""
    let buffer := buffer ++ queryResponse.Key
    let buffer := buffer ++ "\""
    let buffer := buffer ++ ", \"Record\":"
    let buffer := buffer ++ queryResponse.Value
    let buffer := buffer ++ "\x7d"
    writeMembers rest (buffer, true)

/-- The rich query for the requests that refer to the data key `element`. -/
def requestQueryString (element : String) : String :=
  "\x7b\"selector\":\x7b\"docType\":\"request\",\"datatxid\":\"" ++ element ++ "\"\x7d\x7d"

/-- The outer loop of `getQueryListForRequests` over the data keys. -/
def queryLoop (stub : Stub) : List String → String × Bool → Except String (String × Bool)
  | [], st => .ok st
  | element :: rest, st =>
    match stub.GetQueryResult (requestQueryString element) with
    | .error err => .error err
    | .ok resultsIterator =>
      match writeMembers resultsIterator st with
      | .error err => .error err
      | .ok st1 => queryLoop stub rest st1

/-- Go `getQueryListForRequests`: a JSON array of the requests for the data keys in `querylist`. -/
def getQueryListForRequests (stub : Stub) (querylist : List String) : Except String String :=
  match queryLoop stub querylist ("[", false) with
  | .error err => .error err
  | .ok (buffer, _) => .ok (buffer ++ "]")

/-- The rich query for the data records of `owner`. -/
def ownerQueryString (owner : String) : String :=
  "\x7b\"selector\":\x7b\"docType\":\"data\",\"owner\":\"" ++ owner ++ "\"\x7d\x7d"

/-- The loop of `showPendingRequests` that collects the keys of the owner's data. -/
def collectKeys : List (Except String KV) → List String → Except String (List String)
  | [], data_list => .ok data_list
  | .error err :: _, _ => .error err
  | .ok queryResponse :: rest, data_list => collectKeys rest (data_list ++ [queryResponse.Key])

/-- Go `showPendingRequests`: the requests for the data of owner `args[0]`. -/
def showPendingRequests (stub : Stub) (args : List String) : pb.Response × Stub :=
  match args with
  | [] => (shim.Error "Incorrect number of arguments. Expecting 1", stub)
  | a0 :: _ =>
    let owner := strings.ToLower a0
    let queryString := ownerQueryString owner
    match stub.GetQueryResult queryString with
    | .error err => (shim.Error err, stub)
    | .ok resultsIterator =>
      match collectKeys resultsIterator [] with
      | .error err => (shim.Error err, stub)
      | .ok data_list =>
        match getQueryListForRequests stub data_list with
        | .error err => (shim.Error err, stub)
        | .ok queryResults => (shim.Success (some queryResults), stub)

/-- Go `Invoke`: runs the operation named `function` (what `stub.GetFunctionAndParameters`
returns is passed in). -/
def Invoke (stub : Stub) (function : String) (args : List String) : pb.Response × Stub :=
  if function = "publishData" then publishData stub args
  else if function = "showDataInfo" then showDataInfo stub args
  else if function = "showPendingRequests" then showPendingRequests stub args
  else if function = "requestData" then requestData stub args
  else if function = "handleRequest" then handleRequest stub args
  else (shim.Error "Received unknown function invocation", stub)

/-! ## The listing, as the specification words it -/

/-- One member of the array of `getQueryListForRequests`, as the loop writes it. -/
def arrayMember (kv : KV) : String :=
  "\x7b\"Key\":" ++ "\"" ++ kv.Key ++ "\"" ++ ", \"Record\":" ++ kv.Value ++ "\x7d"

/-- Texts separated by one comma each. -/
def joinMembers : List String → String
  | [] => ""
  | [a] => a
  | a :: as => a ++ "," ++ joinMembers as

/-- The array text for a list of entries: the members between brackets, separated by one
comma each. -/
def renderArray (kvs : List KV) : String := "[" ++ joinMembers (kvs.map arrayMember) ++ "]"

/-- The buffer and the flag of `getQueryListForRequests` once the members `done` are written. -/
def loopState (done : List KV) : String × Bool :=
  ("[" ++ joinMembers (done.map arrayMember), !done.isEmpty)

/-- The stored bytes are a document of kind `kind` whose field `field` is `value`. -/
def isRecord (kind field value bytes : String) : Prop :=
  ∃ ms, parseDoc bytes = some ms ∧ docField ms "docType" = some kind
    ∧ docField ms field = some value

/-- The entry `kv` is a stored request record whose data reference is the key of a stored
data record of `owner`. -/
def pendingFor (l : Ledger) (owner : String) (kv : KV) : Prop :=
  l.get kv.Key = some kv.Value
    ∧ ∃ dataKey dataBytes, l.get dataKey = some dataBytes
        ∧ isRecord "data" "owner" owner dataBytes
        ∧ isRecord "request" "datatxid" dataKey kv.Value

/-- The query `query` fails on `stub`: the adapter answers it by an error, or a step of
the iterator it opens fails. -/
def queryBreaks (stub : Stub) (query : String) : Prop :=
  (∃ err, stub.GetQueryResult query = .error err)
    ∨ ∃ resultsIterator err, stub.GetQueryResult query = .ok resultsIterator
        ∧ Except.error err ∈ resultsIterator

/-- The ledger of the join example: data "d1" of alice and "d2" of bob, requests "r1" and
"r3" for "d1" and "r2" for "d2". -/
def exampleStub : Stub :=
  (requestData (requestData (requestData (publishData (publishData
    (Stub.reliable Ledger.empty) ["d1", "c1", "2020-01-01", "10:00", "Alice"]).2
    ["d2", "c2", "2020-01-02", "11:00", "Bob"]).2
    ["r1", "d1", "Carol"]).2 ["r2", "d2", "Carol"]).2 ["r3", "d1", "Dave"]).2

/-- A ledger on which alice owns the data "d1" and "d2" and "r1" is a request for "d2";
the owner query yields "d2" before "d1". -/
def aliceLedger : Ledger :=
  (requestData (publishData (publishData
    (Stub.reliable Ledger.empty) ["d1", "c1", "2020-01-01", "10:00", "alice"]).2
    ["d2", "c2", "2020-01-02", "11:00", "alice"]).2 ["r1", "d2", "carol"]).2.ledger

/-! ## Go strings byte by byte

The definitions so far take a Go string as the text it holds.  A Go string is a sequence of
bytes, though, and an argument of an invocation need not be well-formed UTF-8.  In this
section a `String` stands for a Go string byte by byte: the character with number `b < 256`
stands for the byte `b` (an ASCII text stands for itself).  `encoding/json` and
`strings.ToLower` are given on such byte strings, and `publishData` and `requestData` are
embedded once more with them; the ledger, the stub and `showDataInfo` do not look into the
strings and serve both readings. -/

/-- Go `utf8.EncodeRune`: the bytes of a rune. -/
def utf8.EncodeRune (r : Char) : List Char :=
  if r.toNat < 128 then [r]
  else if r.toNat < 2048 then
    [Char.ofNat (192 + r.toNat / 64), Char.ofNat (128 + r.toNat % 64)]
  else if r.toNat < 65536 then
    [Char.ofNat (224 + r.toNat / 4096), Char.ofNat (128 + r.toNat / 64 % 64),
      Char.ofNat (128 + r.toNat % 64)]
  else
    [Char.ofNat (240 + r.toNat / 262144), Char.ofNat (128 + r.toNat / 4096 % 64),
      Char.ofNat (128 + r.toNat / 64 % 64), Char.ofNat (128 + r.toNat % 64)]

/-- The bytes of a text, its UTF-8 encoding. -/
def bytesOf (text : String) : String := ⟨text.data.flatMap utf8.EncodeRune⟩

/-- A byte string that is well-formed UTF-8: the bytes of some text. -/
def utf8.Valid (b : String) : Prop := ∃ text, b = bytesOf text

/-- A continuation byte, `80`..`BF`. -/
def isCont (b : Char) : Bool := 128 ≤ b.toNat && b.toNat < 192

/-- Go `utf8.DecodeRune`: the rune at the head of the bytes and its width, or `none` where
Go returns `RuneError` with width 1 (no well-formed encoding starts there). -/
def utf8.DecodeRune (bs : List Char) : Option (Char × Nat) :=
  match bs with
  | [] => none
  | b0 :: rest =>
    if b0.toNat < 128 then some (b0, 1)
    else if 194 ≤ b0.toNat ∧ b0.toNat < 224 then
      match rest with
      | b1 :: _ =>
        if isCont b1 then some (Char.ofNat ((b0.toNat - 192) * 64 + (b1.toNat - 128)), 2)
        else none
      | _ => none
    else if 224 ≤ b0.toNat ∧ b0.toNat < 240 then
      match rest with
      | b1 :: b2 :: _ =>
        if (if b0.toNat = 224 then 160 else 128) ≤ b1.toNat
            ∧ b1.toNat < (if b0.toNat = 237 then 160 else 192) ∧ isCont b2 then
          some (Char.ofNat ((b0.toNat - 224) * 4096 + (b1.toNat - 128) * 64
            + (b2.toNat - 128)), 3)
        else none
      | _ => none
    else if 240 ≤ b0.toNat ∧ b0.toNat < 245 then
      match rest with
      | b1 :: b2 :: b3 :: _ =>
        if (if b0.toNat = 240 then 144 else 128) ≤ b1.toNat
            ∧ b1.toNat < (if b0.toNat = 244 then 144 else 192) ∧ isCont b2 ∧ isCont b3 then
          some (Char.ofNat ((b0.toNat - 240) * 262144 + (b1.toNat - 128) * 4096
            + (b2.toNat - 128) * 64 + (b3.toNat - 128)), 4)
        else none
      | _ => none
    else none

/-- The runes of a byte string as a Go `range` loop yields them, `none` for a byte at which
no well-formed encoding starts; `skip` bytes of the rune before are still to be passed. -/
def decodeFrom : Nat → List Char → List (Option Char)
  | _, [] => []
  | skip + 1, _ :: bs => decodeFrom skip bs
  | 0, b :: bs =>
    match utf8.DecodeRune (b :: bs) with
    | some (r, width) => some r :: decodeFrom (width - 1) bs
    | none => none :: decodeFrom 0 bs

/-- The runes of a byte string. -/
def runes (b : String) : List (Option Char) := decodeFrom 0 b.data

/-- The text that a byte string is read as, U+FFFD standing for every ill-formed byte. -/
def textOf (b : String) : String := ⟨(runes b).map (fun r => r.getD (Char.ofNat 65533))⟩

namespace Bytes

/-- Go `strings.ToLower` on a byte string: an ASCII-only string is mapped byte by byte;
any other goes through `strings.Map`, which maps the runes, ill-formed bytes counting as
U+FFFD, and writes the mapped runes out. -/
def strings.ToLower (s : String) : String :=
  if s.data.all (fun c => c.toNat < 128) then ⟨s.data.map lowerChar⟩
  else bytesOf ⟨(textOf s).data.map unicode.ToLower⟩

/-- How `json.Marshal` writes one rune of a string: a byte that is not part of a
well-formed encoding is written as the escape of U+FFFD. -/
def escapeRune (r : Option Char) : List Char :=
  match r with
  | some c => escapeChar c
  | none => [bs, 'u', 'f', 'f', 'f', 'd']

/-- The text of the JSON string literal for a byte string. -/
def encodeString (s : String) : List Char := dq :: ((runes s).flatMap escapeRune ++ [dq])

/-- The text of the members that `json.Marshal` writes: the tag of each field, which is a
text of the source, and the literal for its value. -/
def encodeMembers : List (String × String) → List Char
  | [] => []
  | [m] => DataSharing.encodeString m.1 ++ ':' :: encodeString m.2
  | m :: ms => DataSharing.encodeString m.1 ++ ':' :: encodeString m.2 ++ ',' :: encodeMembers ms

/-- The bytes of the object that `json.Marshal` writes for a struct. -/
def encodeObject (ms : List (String × String)) : String :=
  bytesOf (String.mk (Char.ofNat 123 :: (encodeMembers ms ++ [Char.ofNat 125])))

/-- The members of a JSON document given by its bytes.  `encoding/json` reads the bytes one
by one, all characters of the syntax are ASCII, and inside a string literal an ill-formed
byte is coerced to U+FFFD: the result is that of reading the text of the bytes, with the
member values as bytes again (the member names stay texts, to be compared with the tags). -/
def parseDoc (b : String) : Option (List (String × String)) :=
  (DataSharing.parseDoc (textOf b)).map (fun ms => ms.map (fun m => (m.1, bytesOf m.2)))

/-- What `json.Marshal` writes for a `data` value whose fields are byte strings. -/
def json.Marshal_data (d : data) : String :=
  encodeObject [("docType", d.ObjectType), ("name", d.Name), ("content", d.Content),
    ("date", d.Date), ("time", d.Time), ("owner", d.Owner)]

/-- What `json.Marshal` writes for a `request_data` value whose fields are byte strings. -/
def json.Marshal_request_data (d : request_data) : String :=
  encodeObject [("docType", d.ObjectType), ("name", d.Name), ("datatxid", d.DataTxid),
    ("requestor", d.Requestor)]

/-- What `json.Unmarshal` reads into a `data` value from bytes. -/
def json.Unmarshal_data (b : String) : Option data :=
  (parseDoc b).map (fun ms => ⟨fieldOr ms "docType", fieldOr ms "name", fieldOr ms "content",
    fieldOr ms "date", fieldOr ms "time", fieldOr ms "owner"⟩)

/-- What `json.Unmarshal` reads into a `request_data` value from bytes. -/
def json.Unmarshal_request_data (b : String) : Option request_data :=
  (parseDoc b).map (fun ms => ⟨fieldOr ms "docType", fieldOr ms "name", fieldOr ms "datatxid",
    fieldOr ms "requestor"⟩)

/-- Go `publishData` on byte strings: `contract.go` line for line, with `strings.ToLower`
and `json.Marshal` as they act on bytes. -/
def publishData (stub : Stub) (args : List String) : pb.Response × Stub :=
  match args with
  | [a0, a1, a2, a3, a4] =>
    if a0.length ≤ 0 then (shim.Error "1st argument must be a non-empty string", stub)
    else if a1.length ≤ 0 then (shim.Error "2nd argument must be a non-empty string", stub)
    else if a2.length ≤ 0 then (shim.Error "3rd argument must be a non-empty string", stub)
    else if a3.length ≤ 0 then (shim.Error "4th argument must be a non-empty string", stub)
    else if a4.length ≤ 0 then (shim.Error "4th argument must be a non-empty string", stub)
    else
      let name := a0
      let content := a1
      let date := strings.ToLower a2
      let time := strings.ToLower a3
      let owner := strings.ToLower a4
      match stub.GetState name with
      | .error err => (shim.Error ("Failed to get data: " ++ err), stub)
      | .ok (some _) => (shim.Error ("This data already exists: " ++ name), stub)
      | .ok none =>
        let objectType := "data"
        let dataJSONasBytes := json.Marshal_data ⟨objectType, name, content, date, time, owner⟩
        match stub.PutState name dataJSONasBytes with
        | .error err => (shim.Error err, stub)
        | .ok stub1 => (shim.Success none, stub1)
  | _ => (shim.Error "Incorrect number of arguments. Expecting 5", stub)

/-- Go `requestData` on byte strings: `contract.go` line for line, with `strings.ToLower`
and `json.Marshal` as they act on bytes. -/
def requestData (stub : Stub) (args : List String) : pb.Response × Stub :=
  match args with
  | [a0, a1, a2] =>
    if a0.length ≤ 0 then (shim.Error "1st argument must be a non-empty string", stub)
    else if a1.length ≤ 0 then (shim.Error "2nd argument must be a non-empty string", stub)
    else if a2.length ≤ 0 then (shim.Error "3rd argument must be a non-empty string", stub)
    else
      let name := a0
      let datatxid := a1
      let requestor := strings.ToLower a2
      match stub.GetState datatxid with
      | .error err => (shim.Error ("Failed to get data: " ++ err), stub)
      | .ok _ =>
        let objectType := "request"
        let dataJSONasBytes := json.Marshal_request_data ⟨objectType, name, datatxid, requestor⟩
        match stub.PutState name dataJSONasBytes with
        | .error err => (shim.Error err, stub)
        | .ok stub1 => (shim.Success none, stub1)
  | _ => (shim.Error "Incorrect number of arguments. Expecting 3", stub)

end Bytes

/-! ## Strings -/

theorem length_eq_zero_iff (s : String) : s.length = 0 ↔ s = "" := by
  rw [String.length, List.length_eq_zero]
  constructor
  · intro h
    exact String.ext h
  · intro h
    rw [h]

theorem hexVal_hexDigit (k : Nat) (hk : k < 16) : hexVal (hexDigit k) = some k := by
  interval_cases k <;> decide

theorem hex4_byte (n : Nat) (hn : n < 256) :
    hex4 '0' '0' (hexDigit (n / 16)) (hexDigit (n % 16)) = some n := by
  have h1 : hexVal (hexDigit (n / 16)) = some (n / 16) := hexVal_hexDigit _ (by omega)
  have h2 : hexVal (hexDigit (n % 16)) = some (n % 16) := hexVal_hexDigit _ (by omega)
  have h0 : hexVal '0' = some 0 := by decide
  simp only [hex4, h0, h1, h2]
  congr 1
  omega

theorem char_eq_of_toNat (c : Char) (n : Nat) (h : c.toNat = n) : Char.ofNat n = c := by
  rw [← h]; exact Char.ofNat_toNat c

theorem scanUnits_dq (cs : List Char) : scanUnits (dq :: cs) = some ([], cs) := by
  rw [scanUnits.eq_def]; simp

theorem scanUnits_short (e x : Char) (cs : List Char) (he : e ≠ 'u')
    (hx : unescape e = some x) :
    scanUnits (bs :: e :: cs) = (scanUnits cs).map (fun r => (Unit16.chr x :: r.1, r.2)) := by
  have hb : bs ≠ dq := by decide
  rw [scanUnits.eq_def]; simp [hb, he, hx]

theorem scanUnits_hex (a b c d : Char) (n : Nat) (cs : List Char)
    (hn : hex4 a b c d = some n) :
    scanUnits (bs :: 'u' :: a :: b :: c :: d :: cs)
      = (scanUnits cs).map (fun r => (Unit16.esc n :: r.1, r.2)) := by
  have hb : bs ≠ dq := by decide
  rw [scanUnits.eq_def]; simp [hb, hn]

theorem scanUnits_plain (c : Char) (cs : List Char) (h1 : c ≠ dq) (h2 : c ≠ bs)
    (h3 : ¬ c.toNat < 32) :
    scanUnits (c :: cs) = (scanUnits cs).map (fun r => (Unit16.chr c :: r.1, r.2)) := by
  rw [scanUnits.eq_def]; simp [h1, h2, h3]

theorem scanUnits_escapeChar (c : Char) (rest : List Char) :
    scanUnits (escapeChar c ++ rest)
      = (scanUnits rest).map (fun r => (unitOf c :: r.1, r.2)) := by
  unfold escapeChar
  split_ifs with h1 h2 h3 h4 h5 h6
  · have hu : unitOf c = Unit16.chr c := by
      rcases h1 with rfl | rfl <;> decide
    have he : unescape c = some c := by
      rcases h1 with rfl | rfl <;> decide
    have hcu : c ≠ 'u' := by
      rcases h1 with rfl | rfl <;> decide
    rw [hu]
    exact scanUnits_short c c rest hcu he
  · have hc := char_eq_of_toNat c 10 h2
    subst hc
    exact scanUnits_short 'n' _ rest (by decide) (by decide)
  · have hc := char_eq_of_toNat c 13 h3
    subst hc
    exact scanUnits_short 'r' _ rest (by decide) (by decide)
  · have hc := char_eq_of_toNat c 9 h4
    subst hc
    exact scanUnits_short 't' _ rest (by decide) (by decide)
  · have hlt : c.toNat < 256 := by
      rcases h5 with h | rfl | rfl | rfl
      · omega
      · decide
      · decide
      · decide
    have hu : unitOf c = Unit16.esc c.toNat := by
      unfold unitOf
      rw [if_pos]
      rcases h5 with h | h | h | h
      · exact Or.inl ⟨h, h2, h3, h4⟩
      · exact Or.inr (Or.inl h)
      · exact Or.inr (Or.inr (Or.inl h))
      · exact Or.inr (Or.inr (Or.inr (Or.inl h)))
    rw [hu]
    exact scanUnits_hex _ _ _ _ _ rest (hex4_byte _ hlt)
  · have hu : unitOf c = Unit16.esc c.toNat := by
      unfold unitOf
      rw [if_pos]
      rcases h6 with h | h
      · exact Or.inr (Or.inr (Or.inr (Or.inr (Or.inl h))))
      · exact Or.inr (Or.inr (Or.inr (Or.inr (Or.inr h))))
    rw [hu]
    apply scanUnits_hex
    rcases h6 with h | h <;> rw [h] <;> decide
  · have hu : unitOf c = Unit16.chr c := by
      unfold unitOf
      rw [if_neg]
      push_neg at h5 h6 ⊢
      refine ⟨fun h => absurd h (not_lt.mpr h5.1), h5.2.1, h5.2.2.1, h5.2.2.2, h6.1, h6.2⟩
    push_neg at h1 h5
    rw [hu]
    exact scanUnits_plain c rest h1.1 h1.2 (not_lt.mpr h5.1)

theorem scanUnits_escape (s rest : List Char) :
    scanUnits (s.flatMap escapeChar ++ dq :: rest) = some (s.map unitOf, rest) := by
  induction s with
  | nil => exact scanUnits_dq rest
  | cons c s ih =>
    rw [List.flatMap_cons, List.append_assoc, scanUnits_escapeChar, ih]
    rfl

theorem joinUnits_esc (n : Nat) (us : List Unit16) (hn : isSurrogate n = false) :
    joinUnits (Unit16.esc n :: us) = Char.ofNat n :: joinUnits us := by
  cases us with
  | nil => simp [joinUnits, escChar, hn]
  | cons u us =>
    cases u with
    | chr c => simp [joinUnits, escChar, hn]
    | esc m => simp [joinUnits, escChar, hn]

theorem joinUnits_unitOf (s : List Char) : joinUnits (s.map unitOf) = s := by
  induction s with
  | nil => rfl
  | cons c s ih =>
    rw [List.map_cons]
    by_cases h : c.toNat < 32 ∧ c.toNat ≠ 10 ∧ c.toNat ≠ 13 ∧ c.toNat ≠ 9 ∨ c = '<' ∨ c = '>'
        ∨ c = '&' ∨ c.toNat = 8232 ∨ c.toNat = 8233
    · have hu : unitOf c = Unit16.esc c.toNat := by unfold unitOf; rw [if_pos h]
      rw [hu, joinUnits_esc, ih, Char.ofNat_toNat]
      have hlt : c.toNat < 55296 := by
        rcases h with h | rfl | rfl | rfl | h | h
        · omega
        · decide
        · decide
        · decide
        · omega
        · omega
      simp only [isSurrogate, Bool.and_eq_false_imp, decide_eq_true_eq, decide_eq_false_iff_not]
      omega
    · have hu : unitOf c = Unit16.chr c := by unfold unitOf; rw [if_neg h]
      rw [hu, joinUnits, ih]

theorem scanString_escape (s rest : List Char) :
    scanString (s.flatMap escapeChar ++ dq :: rest) = some (s, rest) := by
  rw [scanString, scanUnits_escape, Option.map_some', joinUnits_unitOf]

/-! ## Documents -/

theorem skipWs_cons (c : Char) (cs : List Char) (h : isWs c = false) : skipWs (c :: cs) = c :: cs := by
  rw [skipWs, h]; rfl

theorem expect_cons (c : Char) (cs : List Char) (h : isWs c = false) : expect c (c :: cs) = some cs := by
  rw [expect, skipWs_cons c cs h]; simp

theorem expect_cons_ne (c x : Char) (cs : List Char) (h : isWs x = false) (hx : x ≠ c) :
    expect c (x :: cs) = none := by
  rw [expect, skipWs_cons x cs h]; simp [hx]

theorem scanQuoted_encodeString (s : String) (rest : List Char) :
    scanQuoted (encodeString s ++ rest) = some (s.data, rest) := by
  have h : expect dq (dq :: (s.data.flatMap escapeChar ++ dq :: rest))
      = some (s.data.flatMap escapeChar ++ dq :: rest) := expect_cons dq _ (by decide)
  simp only [scanQuoted, encodeString, List.cons_append, List.append_assoc, List.singleton_append,
    List.nil_append, h, scanString_escape]

theorem scanMember_encode (m : String × String) (rest : List Char) :
    scanMember (encodeString m.1 ++ ':' :: (encodeString m.2 ++ rest)) = some (m, rest) := by
  simp only [scanMember, scanQuoted_encodeString, expect_cons ':' _ (by decide)]

theorem scanMembers_encode (ms : List (String × String)) (rest : List Char) (fuel : Nat)
    (hne : ms ≠ []) (hfuel : ms.length ≤ fuel) :
    scanMembers fuel (encodeMembers ms ++ Char.ofNat 125 :: rest) = some (ms, rest) := by
  induction ms generalizing fuel with
  | nil => exact absurd rfl hne
  | cons m ms ih =>
    cases fuel with
    | zero => simp at hfuel
    | succ fuel =>
      cases ms with
      | nil =>
        simp only [encodeMembers, scanMembers, List.append_assoc, List.cons_append,
          scanMember_encode, skipWs_cons (Char.ofNat 125) rest (by decide)]
        simp
      | cons m2 ms =>
        have h := ih fuel (by simp) (by simpa using hfuel)
        simp only [encodeMembers, scanMembers, List.append_assoc, List.cons_append,
          scanMember_encode, skipWs_cons ',' _ (by decide)] at h ⊢
        simp [h]

theorem length_encodeMembers (ms : List (String × String)) :
    ms.length ≤ (encodeMembers ms).length := by
  induction ms with
  | nil => simp
  | cons m ms ih =>
    cases ms with
    | nil => simp [encodeMembers, encodeString]
    | cons m2 ms =>
      simp only [encodeMembers, List.length_append, List.length_cons] at ih ⊢
      omega

theorem parseDoc_encodeObject (ms : List (String × String)) (hne : ms ≠ []) :
    parseDoc (encodeObject ms) = some ms := by
  obtain ⟨m, ms1, rfl⟩ := List.exists_cons_of_ne_nil hne
  have hlen := length_encodeMembers (m :: ms1)
  have hstart : ∃ t, encodeMembers (m :: ms1) ++ [Char.ofNat 125] = dq :: t := by
    cases ms1 <;> simp [encodeMembers, encodeString]
  obtain ⟨t, ht⟩ := hstart
  have h1 : expect (Char.ofNat 123) (Char.ofNat 123 :: (encodeMembers (m :: ms1) ++ [Char.ofNat 125]))
      = some (encodeMembers (m :: ms1) ++ [Char.ofNat 125]) := expect_cons _ _ (by decide)
  have h2 : expect (Char.ofNat 125) (encodeMembers (m :: ms1) ++ [Char.ofNat 125]) = none := by
    rw [ht]; exact expect_cons_ne _ _ _ (by decide) (by decide)
  have h3 := scanMembers_encode (m :: ms1) [] (encodeMembers (m :: ms1) ++ [Char.ofNat 125]).length
    hne (by rw [List.length_append]; omega)
  simp only [parseDoc, encodeObject, scanObject, h1, h2, h3, skipWs, if_true]

/-! ## The ledger -/

theorem find_filter_ne (es : List KV) (k k' : String) (h : k' ≠ k) :
    (es.filter (fun e => e.Key != k)).find? (fun e => e.Key == k')
      = es.find? (fun e => e.Key == k') := by
  induction es with
  | nil => rfl
  | cons e es ih =>
    have h' : k ≠ k' := fun e => h e.symm
    by_cases hk : e.Key = k
    · have hk' : e.Key ≠ k' := fun h' => h (h'.symm.trans hk)
      simp [List.filter_cons, List.find?_cons, hk, h, h', ih]
    · by_cases hk' : e.Key = k'
      · simp [List.filter_cons, List.find?_cons, hk', h, h']
      · simp [List.filter_cons, List.find?_cons, hk, hk', ih]

theorem find_filter_self (es : List KV) (k : String) :
    (es.filter (fun e => e.Key != k)).find? (fun e => e.Key == k) = none := by
  simp [List.find?_eq_none, List.mem_filter]

theorem Ledger.get_del_self (l : Ledger) (k : String) : (l.del k).get k = none := by
  simp [Ledger.get, Ledger.del, find_filter_self]

theorem Ledger.get_del_ne (l : Ledger) (k k' : String) (h : k' ≠ k) :
    (l.del k).get k' = l.get k' := by
  simp [Ledger.get, Ledger.del, find_filter_ne _ _ _ h]

theorem Ledger.get_put_self (l : Ledger) (k v : String) : (l.put k v).get k = some v := by
  simp [Ledger.get, Ledger.put]

theorem Ledger.get_put_ne (l : Ledger) (k v k' : String) (h : k' ≠ k) :
    (l.put k v).get k' = l.get k' := by
  have h' : k ≠ k' := fun e => h e.symm
  simp [Ledger.get, Ledger.put, Ledger.del, List.find?_cons, h', find_filter_ne _ _ _ h]

/-! ## publishData -/

theorem publishData_present (stub : Stub) (a0 a1 a2 a3 a4 v : String)
    (h : stub.ledger.get a0 = some v) :
    (publishData stub [a0, a1, a2, a3, a4]).1.Status = shim.ERROR
      ∧ (publishData stub [a0, a1, a2, a3, a4]).2 = stub := by
  unfold publishData
  simp only [Stub.GetState, h]
  split_ifs <;> try exact ⟨rfl, rfl⟩
  cases stub.faults.GetState a0 <;> exact ⟨rfl, rfl⟩

theorem publishData_exists (stub : Stub) (a0 a1 a2 a3 a4 v : String)
    (h0 : a0 ≠ "") (h1 : a1 ≠ "") (h2 : a2 ≠ "") (h3 : a3 ≠ "") (h4 : a4 ≠ "")
    (hf : stub.faults.GetState a0 = none) (h : stub.ledger.get a0 = some v) :
    publishData stub [a0, a1, a2, a3, a4]
      = (shim.Error ("This data already exists: " ++ a0), stub) := by
  simp [publishData, length_eq_zero_iff, h0, h1, h2, h3, h4, Stub.GetState, hf, h]

theorem publishData_absent (l : Ledger) (a0 a1 a2 a3 a4 : String)
    (h0 : a0 ≠ "") (h1 : a1 ≠ "") (h2 : a2 ≠ "") (h3 : a3 ≠ "") (h4 : a4 ≠ "")
    (h : l.get a0 = none) :
    publishData (Stub.reliable l) [a0, a1, a2, a3, a4]
      = (shim.Success none, Stub.reliable (l.put a0 (json.Marshal_data
          ⟨"data", a0, a1, strings.ToLower a2, strings.ToLower a3, strings.ToLower a4⟩))) := by
  simp [publishData, length_eq_zero_iff, h0, h1, h2, h3, h4, Stub.GetState, Stub.PutState,
    Stub.reliable, Faults.none, h]

/-- C1: create-once.  With five non-empty arguments, `publishData` on a stub whose ledger
already holds a value at `name` fails and leaves the stub unchanged, with the message
"This data already exists" when the read itself does not fail; and after a first
`publishData` on a ledger where `name` is absent, a second one with the same `name` fails
with that message, changes nothing, and the value at `name` is the record of the first. -/
theorem publishData_create_once (stub : Stub) (l : Ledger)
    (name content date time owner content2 date2 time2 owner2 v : String)
    (h0 : name ≠ "") (h1 : content ≠ "") (h2 : date ≠ "") (h3 : time ≠ "") (h4 : owner ≠ "")
    (h1' : content2 ≠ "") (h2' : date2 ≠ "") (h3' : time2 ≠ "") (h4' : owner2 ≠ "")
    (hpresent : stub.ledger.get name = some v) (habsent : l.get name = none) :
    ((publishData stub [name, content, date, time, owner]).1.Status = shim.ERROR
      ∧ (publishData stub [name, content, date, time, owner]).2 = stub
      ∧ (stub.faults.GetState name = none →
          (publishData stub [name, content, date, time, owner]).1
            = shim.Error ("This data already exists: " ++ name)))
    ∧ ((publishData (Stub.reliable l) [name, content, date, time, owner]).1 = shim.Success none
      ∧ publishData (publishData (Stub.reliable l) [name, content, date, time, owner]).2
            [name, content2, date2, time2, owner2]
          = (shim.Error ("This data already exists: " ++ name),
              (publishData (Stub.reliable l) [name, content, date, time, owner]).2)
      ∧ (publishData (publishData (Stub.reliable l) [name, content, date, time, owner]).2
            [name, content2, date2, time2, owner2]).2.ledger.get name
          = some (json.Marshal_data ⟨"data", name, content, strings.ToLower date,
              strings.ToLower time, strings.ToLower owner⟩)) := by
  refine ⟨⟨(publishData_present stub _ _ _ _ _ v hpresent).1,
    (publishData_present stub _ _ _ _ _ v hpresent).2, fun hf => ?_⟩, ?_⟩
  · rw [publishData_exists stub _ _ _ _ _ v h0 h1 h2 h3 h4 hf hpresent]
  · rw [publishData_absent l _ _ _ _ _ h0 h1 h2 h3 h4 habsent]
    have hget : (Stub.reliable (l.put name (json.Marshal_data ⟨"data", name, content,
        strings.ToLower date, strings.ToLower time, strings.ToLower owner⟩))).ledger.get name
        = some (json.Marshal_data ⟨"data", name, content, strings.ToLower date,
          strings.ToLower time, strings.ToLower owner⟩) := Ledger.get_put_self _ _ _
    rw [publishData_exists _ _ _ _ _ _ _ h0 h1' h2' h3' h4' rfl hget]
    exact ⟨rfl, rfl, hget⟩

/-- A stored value at "d1" makes `publishData` of "d1" leave the stub as it is. -/
theorem publishData_create_once_witness :
    (publishData (Stub.reliable (Ledger.empty.put "d1" "x")) ["d1", "c", "D", "T", "O"]).2
      = Stub.reliable (Ledger.empty.put "d1" "x") :=
  (publishData_create_once (Stub.reliable (Ledger.empty.put "d1" "x")) Ledger.empty
    "d1" "c" "D" "T" "O" "c2" "D2" "T2" "O2" "x"
    (by decide) (by decide) (by decide) (by decide) (by decide)
    (by decide) (by decide) (by decide) (by decide) (by decide) (by decide)).1.2.1

/-! ## showDataInfo -/

theorem showDataInfo_reliable (l : Ledger) (name : String) :
    showDataInfo (Stub.reliable l) [name]
      = (match l.get name with
          | none => shim.Error ("\x7b\"Error\":\"Marble does not exist: " ++ name ++ "\"\x7d")
          | some v => shim.Success (some v), Stub.reliable l) := by
  simp only [showDataInfo, Stub.GetState, Stub.reliable, Faults.none]
  cases l.get name <;> rfl

theorem unmarshal_marshal_data (d : data) : json.Unmarshal_data (json.Marshal_data d) = some d := by
  simp [json.Unmarshal_data, json.Marshal_data, parseDoc_encodeObject, fieldOr, docField]

/-- The publish/inspect round trip on texts: on a ledger with no value at `name` and with
five non-empty texts as arguments, `publishData` succeeds, and `showDataInfo` of `name` then
succeeds with bytes that decode to the data record of kind "data" with the given name and
content and the lower-cased date, time and owner. -/
theorem publishData_showDataInfo_roundtrip (l : Ledger) (name content date time owner : String)
    (h0 : name ≠ "") (h1 : content ≠ "") (h2 : date ≠ "") (h3 : time ≠ "") (h4 : owner ≠ "")
    (habsent : l.get name = none) :
    (publishData (Stub.reliable l) [name, content, date, time, owner]).1 = shim.Success none
    ∧ ∃ bytes,
        (showDataInfo (publishData (Stub.reliable l) [name, content, date, time, owner]).2
          [name]).1 = shim.Success (some bytes)
        ∧ json.Unmarshal_data bytes = some ⟨"data", name, content, strings.ToLower date,
            strings.ToLower time, strings.ToLower owner⟩ := by
  rw [publishData_absent l _ _ _ _ _ h0 h1 h2 h3 h4 habsent]
  refine ⟨rfl, _, ?_, unmarshal_marshal_data _⟩
  rw [showDataInfo_reliable, Ledger.get_put_self]

/-- Publishing "d1" on the empty ledger and reading it back. -/
theorem publishData_showDataInfo_roundtrip_witness :
    (publishData (Stub.reliable Ledger.empty) ["d1", "<C>", "D", "T", "Alice"]).1
      = shim.Success none :=
  (publishData_showDataInfo_roundtrip Ledger.empty "d1" "<C>" "D" "T" "Alice"
    (by decide) (by decide) (by decide) (by decide) (by decide) (by decide)).1

/-! ## handleRequest -/

theorem handleRequest_reliable (l : Ledger) (name requestRef response : String)
    (h0 : name ≠ "") (h1 : requestRef ≠ "") (h2 : response ≠ "") :
    handleRequest (Stub.reliable l) [name, requestRef, response]
      = (shim.Success none, Stub.reliable ((l.put name (json.Marshal_reply
          ⟨"response", name, requestRef, response⟩)).del requestRef)) := by
  simp [handleRequest, length_eq_zero_iff, h0, h1, h2, Stub.GetState, Stub.PutState,
    Stub.DelState, Stub.reliable, Faults.none]

theorem handleRequest_ok (stub : Stub) (name requestRef response : String)
    (hok : (handleRequest stub [name, requestRef, response]).1.Status = shim.OK) :
    (handleRequest stub [name, requestRef, response]).2
        = ⟨stub.faults, (stub.ledger.put name (json.Marshal_reply
            ⟨"response", name, requestRef, response⟩)).del requestRef⟩
      ∧ stub.faults.GetState requestRef = none := by
  unfold handleRequest at hok ⊢
  simp only [Stub.GetState, Stub.PutState, Stub.DelState] at hok ⊢
  have hne : shim.ERROR ≠ shim.OK := by decide
  split_ifs at hok ⊢ <;> try exact absurd hok hne
  cases hg : stub.faults.GetState requestRef with
  | some e => rw [hg] at hok; exact absurd hok hne
  | none =>
    rw [hg] at hok
    simp only [hg] at hok ⊢
    cases hp : stub.faults.PutState name (json.Marshal_reply ⟨"response", name, requestRef, response⟩) with
    | some e => rw [hp] at hok; exact absurd hok hne
    | none =>
      simp only [hp] at hok ⊢
      cases hd : stub.faults.DelState requestRef with
      | some e => rw [hd] at hok; exact absurd hok hne
      | none => simp

/-- C4: resolve consumes the request.  On every ledger and with three non-empty arguments
`handleRequest` succeeds when the adapter does not fail; and whenever `handleRequest`
succeeds, the ledger it leaves holds no value at `requestRef`, and `showDataInfo` of
`requestRef` on it fails with the message that the key does not exist. -/
theorem handleRequest_consumes_request (stub : Stub) (l : Ledger)
    (name requestRef response : String)
    (h0 : name ≠ "") (h1 : requestRef ≠ "") (h2 : response ≠ "")
    (hok : (handleRequest stub [name, requestRef, response]).1.Status = shim.OK) :
    (handleRequest (Stub.reliable l) [name, requestRef, response]).1 = shim.Success none
    ∧ (handleRequest stub [name, requestRef, response]).2.ledger.get requestRef = none
    ∧ showDataInfo (handleRequest stub [name, requestRef, response]).2 [requestRef]
        = (shim.Error ("\x7b\"Error\":\"Marble does not exist: " ++ requestRef ++ "\"\x7d"),
            (handleRequest stub [name, requestRef, response]).2) := by
  obtain ⟨hs, hg⟩ := handleRequest_ok stub name requestRef response hok
  refine ⟨by rw [handleRequest_reliable l _ _ _ h0 h1 h2], ?_, ?_⟩
  · rw [hs]; exact Ledger.get_del_self _ _
  · rw [hs]
    simp only [showDataInfo, Stub.GetState, hg, Ledger.get_del_self]

/-- Resolving "r1" on a ledger that holds a value at "r1" leaves no value there. -/
theorem handleRequest_consumes_request_witness :
    (handleRequest (Stub.reliable (Ledger.empty.put "r1" "x")) ["resp1", "r1", "ok"]).2.ledger.get
      "r1" = none :=
  (handleRequest_consumes_request (Stub.reliable (Ledger.empty.put "r1" "x")) Ledger.empty
    "resp1" "r1" "ok" (by decide) (by decide) (by decide) (by decide)).2.1

theorem unmarshal_marshal_reply (d : reply) :
    json.Unmarshal_reply (json.Marshal_reply d)
      = some ⟨d.ObjectType, d.Name, d.RequestTxid, ""⟩ := by
  simp [json.Unmarshal_reply, json.Marshal_reply, parseDoc_encodeObject, fieldOr, docField]

/-- Whatever the reply argument is, the record that `handleRequest` stores at `name` (for a
name other than the request key) decodes with kind "response", the name and the request
key, and an empty reply. -/
theorem handleRequest_stores (l : Ledger) (name requestRef response : String)
    (h0 : name ≠ "") (h1 : requestRef ≠ "") (h2 : response ≠ "") (hne : name ≠ requestRef) :
    ∃ bytes,
      (showDataInfo (handleRequest (Stub.reliable l) [name, requestRef, response]).2 [name]).1
        = shim.Success (some bytes)
      ∧ json.Unmarshal_reply bytes = some ⟨"response", name, requestRef, ""⟩ := by
  rw [handleRequest_reliable l _ _ _ h0 h1 h2]
  refine ⟨json.Marshal_reply ⟨"response", name, requestRef, response⟩, ?_,
    unmarshal_marshal_reply _⟩
  rw [showDataInfo_reliable, Ledger.get_del_ne _ _ _ hne, Ledger.get_put_self]

/-- C3 (failing input).  `handleRequest` with name "resp1", request "r1" and reply "ok" on
the empty ledger succeeds; the bytes then shown for "resp1" carry no reply member, and
they decode to a `reply` record whose reply field is empty, not "ok". -/
theorem handleRequest_loses_reply :
    (handleRequest (Stub.reliable Ledger.empty) ["resp1", "r1", "ok"]).1 = shim.Success none
    ∧ (showDataInfo (handleRequest (Stub.reliable Ledger.empty) ["resp1", "r1", "ok"]).2
        ["resp1"]).1
      = shim.Success
          (some "\x7b\"docType\":\"response\",\"name\":\"resp1\",\"requesttxid\":\"r1\"\x7d")
    ∧ json.Unmarshal_reply
        "\x7b\"docType\":\"response\",\"name\":\"resp1\",\"requesttxid\":\"r1\"\x7d"
      = some ⟨"response", "resp1", "r1", ""⟩ := by
  decide

/-! ## requestData -/

theorem requestData_reliable (l : Ledger) (name dataRef requestor : String)
    (h0 : name ≠ "") (h1 : dataRef ≠ "") (h2 : requestor ≠ "") :
    requestData (Stub.reliable l) [name, dataRef, requestor]
      = (shim.Success none, Stub.reliable (l.put name (json.Marshal_request_data
          ⟨"request", name, dataRef, strings.ToLower requestor⟩))) := by
  simp [requestData, length_eq_zero_iff, h0, h1, h2, Stub.GetState, Stub.PutState,
    Stub.reliable, Faults.none]

theorem unmarshal_marshal_request_data (d : request_data) :
    json.Unmarshal_request_data (json.Marshal_request_data d) = some d := by
  simp [json.Unmarshal_request_data, json.Marshal_request_data, parseDoc_encodeObject, fieldOr,
    docField]

/-- The upsert of `requestData` on texts: on every ledger, whatever is stored at `dataRef`
or at `name`, `requestData` with three non-empty texts as arguments succeeds, and
`showDataInfo` of `name` then succeeds with bytes that decode to the request record of kind
"request" with the given name and data reference and the lower-cased requestor. -/
theorem requestData_upsert (l : Ledger) (name dataRef requestor : String)
    (h0 : name ≠ "") (h1 : dataRef ≠ "") (h2 : requestor ≠ "") :
    (requestData (Stub.reliable l) [name, dataRef, requestor]).1 = shim.Success none
    ∧ ∃ bytes,
        (showDataInfo (requestData (Stub.reliable l) [name, dataRef, requestor]).2 [name]).1
          = shim.Success (some bytes)
        ∧ json.Unmarshal_request_data bytes
          = some ⟨"request", name, dataRef, strings.ToLower requestor⟩ := by
  rw [requestData_reliable l _ _ _ h0 h1 h2]
  refine ⟨rfl, _, ?_, unmarshal_marshal_request_data _⟩
  rw [showDataInfo_reliable, Ledger.get_put_self]

/-- A request "r9" for a data key that does not exist, on the empty ledger. -/
theorem requestData_upsert_witness :
    (requestData (Stub.reliable Ledger.empty) ["r9", "does-not-exist", "Carol"]).1
      = shim.Success none :=
  (requestData_upsert Ledger.empty "r9" "does-not-exist" "Carol"
    (by decide) (by decide) (by decide)).1

/-! ## Argument validation -/

theorem isArgumentError_error (msg : String) (h : msg ∈ argumentErrors) :
    isArgumentError (shim.Error msg) := ⟨rfl, h⟩

theorem publishData_rejects (stub : Stub) (args : List String)
    (h : args.length ≠ 5 ∨ "" ∈ args) :
    isArgumentError (publishData stub args).1 ∧ (publishData stub args).2 = stub := by
  unfold publishData
  split
  · rename_i a0 a1 a2 a3 a4
    simp only [Nat.le_zero, length_eq_zero_iff]
    split_ifs with h0 h1 h2 h3 h4
    · exact ⟨isArgumentError_error _ (by decide), rfl⟩
    · exact ⟨isArgumentError_error _ (by decide), rfl⟩
    · exact ⟨isArgumentError_error _ (by decide), rfl⟩
    · exact ⟨isArgumentError_error _ (by decide), rfl⟩
    · exact ⟨isArgumentError_error _ (by decide), rfl⟩
    · exfalso
      rcases h with h | h
      · exact h rfl
      · simp only [List.mem_cons, List.mem_singleton, List.not_mem_nil, or_false] at h
        rcases h with h | h | h | h | h
        · exact h0 h.symm
        · exact h1 h.symm
        · exact h2 h.symm
        · exact h3 h.symm
        · exact h4 h.symm
  · exact ⟨isArgumentError_error _ (by decide), rfl⟩

theorem requestData_rejects (stub : Stub) (args : List String)
    (h : args.length ≠ 3 ∨ "" ∈ args) :
    isArgumentError (requestData stub args).1 ∧ (requestData stub args).2 = stub := by
  unfold requestData
  split
  · rename_i a0 a1 a2
    simp only [Nat.le_zero, length_eq_zero_iff]
    split_ifs with h0 h1 h2
    · exact ⟨isArgumentError_error _ (by decide), rfl⟩
    · exact ⟨isArgumentError_error _ (by decide), rfl⟩
    · exact ⟨isArgumentError_error _ (by decide), rfl⟩
    · exfalso
      rcases h with h | h
      · exact h rfl
      · simp only [List.mem_cons, List.mem_singleton, List.not_mem_nil, or_false] at h
        rcases h with h | h | h
        · exact h0 h.symm
        · exact h1 h.symm
        · exact h2 h.symm
  · exact ⟨isArgumentError_error _ (by decide), rfl⟩

theorem handleRequest_rejects (stub : Stub) (args : List String)
    (h : args.length ≠ 3 ∨ "" ∈ args) :
    isArgumentError (handleRequest stub args).1 ∧ (handleRequest stub args).2 = stub := by
  unfold handleRequest
  split
  · rename_i a0 a1 a2
    simp only [Nat.le_zero, length_eq_zero_iff]
    split_ifs with h0 h1 h2
    · exact ⟨isArgumentError_error _ (by decide), rfl⟩
    · exact ⟨isArgumentError_error _ (by decide), rfl⟩
    · exact ⟨isArgumentError_error _ (by decide), rfl⟩
    · exfalso
      rcases h with h | h
      · exact h rfl
      · simp only [List.mem_cons, List.mem_singleton, List.not_mem_nil, or_false] at h
        rcases h with h | h | h
        · exact h0 h.symm
        · exact h1 h.symm
        · exact h2 h.symm
  · exact ⟨isArgumentError_error _ (by decide), rfl⟩

/-- C8: the three writing operations validate their arguments.  `publishData` fails when
the argument count is not 5 or an argument is empty, `requestData` and `handleRequest` fail
when the count is not 3 or an argument is empty; each fails with an argument error and
leaves the stub, and so the ledger, as it was. -/
theorem writers_reject_bad_arguments (stub : Stub) (args5 args3 : List String)
    (h5 : args5.length ≠ 5 ∨ "" ∈ args5) (h3 : args3.length ≠ 3 ∨ "" ∈ args3) :
    (isArgumentError (publishData stub args5).1 ∧ (publishData stub args5).2 = stub)
    ∧ (isArgumentError (requestData stub args3).1 ∧ (requestData stub args3).2 = stub)
    ∧ (isArgumentError (handleRequest stub args3).1 ∧ (handleRequest stub args3).2 = stub) :=
  ⟨publishData_rejects stub args5 h5, requestData_rejects stub args3 h3,
    handleRequest_rejects stub args3 h3⟩

/-- Five arguments with an empty owner, and two arguments where three are expected. -/
theorem writers_reject_bad_arguments_witness :
    (publishData (Stub.reliable Ledger.empty) ["d1", "c", "d", "t", ""]).2
        = Stub.reliable Ledger.empty
    ∧ (handleRequest (Stub.reliable Ledger.empty) ["resp1", "r1"]).2
        = Stub.reliable Ledger.empty :=
  ⟨(writers_reject_bad_arguments (Stub.reliable Ledger.empty) ["d1", "c", "d", "t", ""]
      ["resp1", "r1"] (Or.inr (by decide)) (Or.inl (by decide))).1.2,
   (writers_reject_bad_arguments (Stub.reliable Ledger.empty) ["d1", "c", "d", "t", ""]
      ["resp1", "r1"] (Or.inr (by decide)) (Or.inl (by decide))).2.2.2⟩

/-! ## The reading operations leave the stub as it is -/

theorem showDataInfo_stub (stub : Stub) (args : List String) :
    (showDataInfo stub args).2 = stub := by
  unfold showDataInfo
  split
  · split <;> rfl
  · rfl

theorem showPendingRequests_stub (stub : Stub) (args : List String) :
    (showPendingRequests stub args).2 = stub := by
  unfold showPendingRequests
  split
  · rfl
  · simp only
    split
    · rfl
    · split
      · rfl
      · split <;> rfl

/-- C10: `showDataInfo` is an exact read, whatever kind of record is stored.  It never
changes the stub; with a working adapter, `showDataInfo` of `name` fails exactly when no
value is stored at `name`, with the message that the key does not exist, and otherwise
succeeds with exactly the stored bytes. -/
theorem showDataInfo_exact_read (stub : Stub) (args : List String) (l : Ledger) (name : String) :
    (showDataInfo stub args).2 = stub
    ∧ (showDataInfo (Stub.reliable l) [name]).1
        = (match l.get name with
            | none => shim.Error ("\x7b\"Error\":\"Marble does not exist: " ++ name ++ "\"\x7d")
            | some valAsbytes => shim.Success (some valAsbytes))
    ∧ ((showDataInfo (Stub.reliable l) [name]).1.Status = shim.ERROR ↔ l.get name = none)
    ∧ ((showDataInfo (Stub.reliable l) [name]).1.Status = shim.OK
        ↔ ∃ valAsbytes, l.get name = some valAsbytes) := by
  refine ⟨showDataInfo_stub stub args, ?_, ?_, ?_⟩
  · rw [showDataInfo_reliable]
  · rw [showDataInfo_reliable]
    cases l.get name <;> simp [shim.Error, shim.Success, shim.OK, shim.ERROR]
  · rw [showDataInfo_reliable]
    cases l.get name <;> simp [shim.Error, shim.Success, shim.OK, shim.ERROR]

/-- C9 (counterexample).  `showPendingRequests` does not reject the argument list that
holds one empty string: on the empty ledger it succeeds with the empty array. -/
theorem showPendingRequests_accepts_empty_string :
    (showPendingRequests (Stub.reliable Ledger.empty) [""]).1 = shim.Success (some "[]")
    ∧ ¬ isArgumentError (showPendingRequests (Stub.reliable Ledger.empty) [""]).1 := by
  have h : (showPendingRequests (Stub.reliable Ledger.empty) [""]).1
      = shim.Success (some "[]") := by decide
  refine ⟨h, ?_⟩
  rw [h]
  intro hc
  exact absurd hc.1 (by decide)

theorem showDataInfo_rejects (stub : Stub) (args : List String) (h : args.length ≠ 1) :
    isArgumentError (showDataInfo stub args).1 ∧ (showDataInfo stub args).2 = stub := by
  unfold showDataInfo
  split
  · exact absurd rfl h
  · exact ⟨isArgumentError_error _ (by decide), rfl⟩

/-- C9 (amended).  `publishData` rejects with an argument error every argument list whose
length is not 5 or that contains an empty string, `requestData` and `handleRequest` every
list whose length is not 3 or that contains an empty string, `showDataInfo` every list
whose length is not 1, and `showPendingRequests` the empty list; none of them changes the
stub when it does so, and the two reading operations never change it. -/
theorem operations_reject_bad_arguments (stub : Stub) (args5 args3 args1 args : List String)
    (h5 : args5.length ≠ 5 ∨ "" ∈ args5) (h3 : args3.length ≠ 3 ∨ "" ∈ args3)
    (h1 : args1.length ≠ 1) :
    (isArgumentError (publishData stub args5).1 ∧ (publishData stub args5).2 = stub)
    ∧ (isArgumentError (requestData stub args3).1 ∧ (requestData stub args3).2 = stub)
    ∧ (isArgumentError (handleRequest stub args3).1 ∧ (handleRequest stub args3).2 = stub)
    ∧ (isArgumentError (showDataInfo stub args1).1 ∧ (showDataInfo stub args1).2 = stub)
    ∧ (isArgumentError (showPendingRequests stub []).1 ∧ (showPendingRequests stub []).2 = stub)
    ∧ (showDataInfo stub args).2 = stub ∧ (showPendingRequests stub args).2 = stub :=
  ⟨publishData_rejects stub args5 h5, requestData_rejects stub args3 h3,
    handleRequest_rejects stub args3 h3, showDataInfo_rejects stub args1 h1,
    ⟨isArgumentError_error _ (by decide), rfl⟩, showDataInfo_stub stub args,
    showPendingRequests_stub stub args⟩

/-- Four arguments for `publishData`, an empty name for `requestData`, no argument for
`showDataInfo`. -/
theorem operations_reject_bad_arguments_witness :
    isArgumentError (publishData (Stub.reliable Ledger.empty) ["d1", "c", "d", "t"]).1
    ∧ isArgumentError (requestData (Stub.reliable Ledger.empty) ["", "d1", "carol"]).1
    ∧ isArgumentError (showDataInfo (Stub.reliable Ledger.empty) []).1 :=
  ⟨(operations_reject_bad_arguments (Stub.reliable Ledger.empty) ["d1", "c", "d", "t"]
      ["", "d1", "carol"] [] ["x"] (Or.inl (by decide)) (Or.inr (by decide)) (by decide)).1.1,
   (operations_reject_bad_arguments (Stub.reliable Ledger.empty) ["d1", "c", "d", "t"]
      ["", "d1", "carol"] [] ["x"] (Or.inl (by decide)) (Or.inr (by decide)) (by decide)).2.1.1,
   (operations_reject_bad_arguments (Stub.reliable Ledger.empty) ["d1", "c", "d", "t"]
      ["", "d1", "carol"] [] ["x"] (Or.inl (by decide)) (Or.inr (by decide))
      (by decide)).2.2.2.1.1⟩

/-! ## What the writing operations change -/

theorem publishData_keeps (stub : Stub) (args : List String) (k v : String)
    (h : stub.ledger.get k = some v) : (publishData stub args).2.ledger.get k = some v := by
  unfold publishData
  split
  · rename_i a0 a1 a2 a3 a4
    split_ifs <;> try exact h
    simp only [Stub.GetState, Stub.PutState]
    cases stub.faults.GetState a0 with
    | some e => exact h
    | none =>
      cases hg : stub.ledger.get a0 with
      | some w => exact h
      | none =>
        simp only
        split
        · exact h
        · rename_i stub1 heq
          split at heq
          · cases heq
          · cases heq
            have hne : k ≠ a0 := by
              intro hk
              rw [hk, hg] at h
              cases h
            simp only [Ledger.get_put_ne _ _ _ _ hne, h]
  · exact h

theorem requestData_frame (stub : Stub) (args : List String) (k : String)
    (h : args[0]? ≠ some k) : (requestData stub args).2.ledger.get k = stub.ledger.get k := by
  unfold requestData
  split
  · rename_i a0 a1 a2
    have hne : k ≠ a0 := by
      intro hk
      exact h (by simp [hk])
    split_ifs <;> try rfl
    simp only [Stub.GetState, Stub.PutState]
    cases stub.faults.GetState a1 with
    | some e => rfl
    | none =>
      simp only
      cases stub.faults.PutState a0 (json.Marshal_request_data
          ⟨"request", a0, a1, strings.ToLower a2⟩) with
      | some e => rfl
      | none => exact Ledger.get_put_ne _ _ _ _ hne
  · rfl

theorem handleRequest_frame (stub : Stub) (args : List String) (k : String)
    (h0 : args[0]? ≠ some k) (h1 : args[1]? ≠ some k) :
    (handleRequest stub args).2.ledger.get k = stub.ledger.get k := by
  unfold handleRequest
  split
  · rename_i a0 a1 a2
    have hne0 : k ≠ a0 := by
      intro hk
      exact h0 (by simp [hk])
    have hne1 : k ≠ a1 := by
      intro hk
      exact h1 (by simp [hk])
    split_ifs <;> try rfl
    simp only [Stub.GetState, Stub.PutState, Stub.DelState]
    cases stub.faults.GetState a1 with
    | some e => rfl
    | none =>
      simp only
      cases stub.faults.PutState a0 (json.Marshal_reply ⟨"response", a0, a1, a2⟩) with
      | some e => rfl
      | none =>
        simp only
        cases stub.faults.DelState a1 with
        | some e => exact Ledger.get_put_ne _ _ _ _ hne0
        | none =>
          simp only
          rw [Ledger.get_del_ne _ _ _ hne1]
          exact Ledger.get_put_ne _ _ _ _ hne0
  · rfl

/-- C5 (counterexample).  After "d1" is published as a data record, `requestData` with
name "d1" replaces it by a request record, and `handleRequest` with request "d1" removes it. -/
theorem data_record_not_immutable :
    (publishData (Stub.reliable Ledger.empty) ["d1", "c", "d", "t", "alice"]).2.ledger.get "d1"
      = some (json.Marshal_data ⟨"data", "d1", "c", "d", "t", "alice"⟩)
    ∧ (requestData (publishData (Stub.reliable Ledger.empty) ["d1", "c", "d", "t", "alice"]).2
        ["d1", "x", "bob"]).2.ledger.get "d1"
      = some (json.Marshal_request_data ⟨"request", "d1", "x", "bob"⟩)
    ∧ json.Marshal_request_data ⟨"request", "d1", "x", "bob"⟩
      ≠ json.Marshal_data ⟨"data", "d1", "c", "d", "t", "alice"⟩
    ∧ (handleRequest (publishData (Stub.reliable Ledger.empty) ["d1", "c", "d", "t", "alice"]).2
        ["resp1", "d1", "ok"]).2.ledger.get "d1" = none := by
  decide

/-- C5 (amended).  When the ledger holds a value at key `k` (a data record or any other),
an invocation of `publishData`, `showDataInfo` or `showPendingRequests` with any arguments
leaves that value at `k`; so does `requestData` unless its name argument is `k`, and
`handleRequest` unless its name or its request argument is `k`; an unknown function
changes nothing. -/
theorem stored_value_kept (stub : Stub) (function : String) (args : List String) (k v : String)
    (hv : stub.ledger.get k = some v)
    (hreq : function = "requestData" → args[0]? ≠ some k)
    (hres : function = "handleRequest" → args[0]? ≠ some k ∧ args[1]? ≠ some k) :
    (Invoke stub function args).2.ledger.get k = some v := by
  unfold Invoke
  split_ifs with h1 h2 h3 h4 h5
  · exact publishData_keeps stub args k v hv
  · rw [showDataInfo_stub]; exact hv
  · rw [showPendingRequests_stub]; exact hv
  · rw [requestData_frame stub args k (hreq h4)]; exact hv
  · rw [handleRequest_frame stub args k (hres h5).1 (hres h5).2]; exact hv
  · exact hv

/-- A request named "r1" for the stored data record "d1" leaves "d1" as it is. -/
theorem stored_value_kept_witness :
    (Invoke (Stub.reliable (Ledger.empty.put "d1" "x")) "requestData"
      ["r1", "d1", "bob"]).2.ledger.get "d1" = some "x" :=
  stored_value_kept (Stub.reliable (Ledger.empty.put "d1" "x")) "requestData"
    ["r1", "d1", "bob"] "d1" "x" (by decide) (fun _ => by decide) (fun h => absurd h (by decide))

/-! ## showPendingRequests -/

/-! ### Query texts -/

theorem scanUnits_plainText (s rest : List Char)
    (h : ∀ c ∈ s, c ≠ dq ∧ c ≠ bs ∧ 32 ≤ c.toNat) :
    scanUnits (s ++ dq :: rest) = some (s.map Unit16.chr, rest) := by
  induction s with
  | nil => exact scanUnits_dq rest
  | cons c s ih =>
    have hc := h c (List.mem_cons_self c s)
    rw [List.cons_append, scanUnits_plain c _ hc.1 hc.2.1 (by omega),
      ih (fun x hx => h x (List.mem_cons_of_mem c hx))]
    rfl

theorem joinUnits_chr (s : List Char) : joinUnits (s.map Unit16.chr) = s := by
  induction s with
  | nil => rfl
  | cons c s ih => rw [List.map_cons, joinUnits, ih]

theorem scanQuoted_plainText (s : String) (rest : List Char) (h : plainText s) :
    scanQuoted (dq :: (s.data ++ dq :: rest)) = some (s.data, rest) := by
  rw [scanQuoted, expect_cons dq _ (by decide)]
  simp only [scanString, scanUnits_plainText s.data rest h, Option.map_some', joinUnits_chr]

theorem ownerQueryString_data (owner : String) :
    (ownerQueryString owner).data
      = Char.ofNat 123 :: (encodeString "selector" ++ ':' :: Char.ofNat 123 ::
          (encodeString "docType" ++ ':' :: (encodeString "data" ++ ',' ::
            (encodeString "owner" ++ ':' :: dq ::
              (owner.data ++ [dq, Char.ofNat 125, Char.ofNat 125]))))) := by
  rfl

theorem requestQueryString_data (element : String) :
    (requestQueryString element).data
      = Char.ofNat 123 :: (encodeString "selector" ++ ':' :: Char.ofNat 123 ::
          (encodeString "docType" ++ ':' :: (encodeString "request" ++ ',' ::
            (encodeString "datatxid" ++ ':' :: dq ::
              (element.data ++ [dq, Char.ofNat 125, Char.ofNat 125]))))) := by
  rfl

theorem scanMember_plain (field value : String) (rest : List Char) (h : plainText value) :
    scanMember (encodeString field ++ ':' :: dq :: (value.data ++ dq :: rest))
      = some ((field, value), rest) := by
  simp only [scanMember, scanQuoted_encodeString, expect_cons ':' _ (by decide),
    scanQuoted_plainText value rest h]

theorem scanMembers_selector (kind field value : String) (rest : List Char) (fuel : Nat)
    (hf : 2 ≤ fuel) (h : plainText value) :
    scanMembers fuel (encodeString "docType" ++ ':' :: (encodeString kind ++ ',' ::
        (encodeString field ++ ':' :: dq :: (value.data ++ dq :: Char.ofNat 125 :: rest))))
      = some ([("docType", kind), (field, value)], rest) := by
  obtain ⟨k, rfl⟩ := Nat.exists_eq_add_of_le' hf
  have h1 := scanMember_encode ("docType", kind)
    (',' :: (encodeString field ++ ':' :: dq :: (value.data ++ dq :: Char.ofNat 125 :: rest)))
  simp only at h1
  simp only [scanMembers, h1, skipWs_cons ',' _ (by decide), scanMember_plain _ _ _ h,
    skipWs_cons (Char.ofNat 125) _ (by decide)]
  simp

theorem parseQuery_selector (query kind field value : String) (h : plainText value)
    (hq : query.data
      = Char.ofNat 123 :: (encodeString "selector" ++ ':' :: Char.ofNat 123 ::
          (encodeString "docType" ++ ':' :: (encodeString kind ++ ',' ::
            (encodeString field ++ ':' :: dq ::
              (value.data ++ [dq, Char.ofNat 125, Char.ofNat 125])))))) :
    parseQuery query = some [("docType", kind), (field, value)] := by
  have hlen : 2 ≤ (encodeString "docType" ++ ':' :: (encodeString kind ++ ',' ::
      (encodeString field ++ ':' :: dq ::
        (value.data ++ [dq, Char.ofNat 125, Char.ofNat 125])))).length := by
    simp only [encodeString, List.length_append, List.length_cons]
    omega
  have hstart : expect (Char.ofNat 125) (encodeString "docType" ++ ':' :: (encodeString kind ++ ',' ::
      (encodeString field ++ ':' :: dq ::
        (value.data ++ [dq, Char.ofNat 125, Char.ofNat 125])))) = none :=
    expect_cons_ne _ _ _ (by decide) (by decide)
  have hm := scanMembers_selector kind field value [Char.ofNat 125] _ hlen h
  have hsel : ("selector".data = "selector".data ∧ skipWs [] = []) := ⟨rfl, rfl⟩
  simp only [parseQuery, hq, expect_cons (Char.ofNat 123) _ (by decide), scanQuoted_encodeString,
    expect_cons ':' _ (by decide), scanObject, hstart]
  simp only [List.cons_append, List.nil_append] at hm
  simp only [hm, expect_cons (Char.ofNat 125) _ (by decide), hsel, and_self, if_true]

theorem matchesSelector_iff (kind field value bytes : String) :
    matchesSelector [("docType", kind), (field, value)] bytes = true
      ↔ isRecord kind field value bytes := by
  unfold matchesSelector isRecord
  cases parseDoc bytes with
  | none => simp
  | some ms => simp

theorem Ledger.mem_entries_iff (l : Ledger) (kv : KV) :
    kv ∈ l.entries ↔ l.get kv.Key = some kv.Value := by
  obtain ⟨es, hnd⟩ := l
  simp only [Ledger.get]
  induction es with
  | nil => simp
  | cons e es ih =>
    rw [List.map_cons, List.nodup_cons] at hnd
    by_cases hk : e.Key = kv.Key
    · have hnot : kv ∉ es := fun hm => hnd.1 (hk ▸ List.mem_map_of_mem KV.Key hm)
      simp only [List.mem_cons, List.find?_cons, hk, beq_self_eq_true, Option.map_some',
        Option.some.injEq, hnot, or_false]
      constructor
      · intro h; rw [h]
      · intro h
        cases e; cases kv
        simp only [KV.mk.injEq] at hk h ⊢
        exact ⟨hk.symm, h.symm⟩
    · have hne : kv ≠ e := fun h => hk (by rw [h])
      have hb : (e.Key == kv.Key) = false := by simpa using hk
      simp only [List.mem_cons, hne, false_or, List.find?_cons, hb]
      exact ih hnd.2

theorem iterate_none (query : String) (i : Nat) (kvs : List KV) :
    iterate Faults.none query i kvs = kvs.map Except.ok := by
  induction kvs generalizing i with
  | nil => rfl
  | cons kv kvs ih =>
    rw [iterate, ih]
    rfl

theorem GetQueryResult_reliable (l : Ledger) (query : String) (sel : List (String × String))
    (h : parseQuery query = some sel) :
    (Stub.reliable l).GetQueryResult query
      = .ok ((l.entries.filter (fun e => matchesSelector sel e.Value)).map Except.ok) := by
  simp only [Stub.GetQueryResult, Stub.reliable, h, iterate_none]
  rfl

theorem collectKeys_ok (kvs : List KV) (data_list : List String) :
    collectKeys (kvs.map Except.ok) data_list = .ok (data_list ++ kvs.map KV.Key) := by
  induction kvs generalizing data_list with
  | nil => simp [collectKeys]
  | cons kv kvs ih => simp [collectKeys, ih]

theorem joinMembers_concat (xs : List String) (a : String) :
    joinMembers (xs ++ [a]) = if xs = [] then a else joinMembers xs ++ "," ++ a := by
  induction xs with
  | nil => rfl
  | cons x xs ih =>
    cases xs with
    | nil => simp [joinMembers]
    | cons y ys =>
      have h1 : joinMembers (x :: y :: ys ++ [a]) = x ++ "," ++ joinMembers (y :: ys ++ [a]) := rfl
      have h2 : joinMembers (x :: y :: ys) = x ++ "," ++ joinMembers (y :: ys) := rfl
      rw [h1, ih, h2]
      simp [String.append_assoc]

theorem loopState_concat (done : List KV) (kv : KV) :
    loopState (done ++ [kv])
      = ((if (loopState done).2 = true then (loopState done).1 ++ "," else (loopState done).1)
          ++ "\x7b\"Key\":" ++ "\"" ++ kv.Key ++ "\"" ++ ", \"Record\":" ++ kv.Value
          ++ "\x7d", true) := by
  cases done with
  | nil =>
    refine Prod.ext (String.ext ?_) rfl
    simp only [loopState, List.nil_append, List.map_cons, List.map_nil, joinMembers, arrayMember,
      List.isEmpty, Bool.not_true, Bool.false_eq_true, if_false, String.data_append,
      List.append_assoc]
  | cons d ds =>
    refine Prod.ext (String.ext ?_) rfl
    simp only [loopState, List.map_append, List.map_cons, List.map_nil, joinMembers_concat,
      arrayMember, List.isEmpty, Bool.not_false, if_true, String.data_append,
      List.append_assoc, reduceCtorEq, if_false]

theorem writeMembers_ok (kvs done : List KV) :
    writeMembers (kvs.map Except.ok) (loopState done) = .ok (loopState (done ++ kvs)) := by
  induction kvs generalizing done with
  | nil => simp [writeMembers]
  | cons kv kvs ih =>
    have h := ih (done ++ [kv])
    rw [loopState_concat, List.append_assoc] at h
    rw [List.map_cons]
    show writeMembers (Except.ok kv :: kvs.map Except.ok) ((loopState done).1, (loopState done).2)
      = _
    rw [writeMembers]
    exact h

theorem requestQuery_reliable (l : Ledger) (element : String) (h : plainText element) :
    (Stub.reliable l).GetQueryResult (requestQueryString element)
      = .ok ((l.entries.filter (fun e => matchesSelector
          [("docType", "request"), ("datatxid", element)] e.Value)).map Except.ok) :=
  GetQueryResult_reliable l _ _
    (parseQuery_selector _ _ _ _ h (requestQueryString_data element))

theorem queryLoop_ok (l : Ledger) (keys : List String) (done : List KV)
    (h : ∀ k ∈ keys, plainText k) :
    queryLoop (Stub.reliable l) keys (loopState done)
      = .ok (loopState (done ++ keys.flatMap (fun k => l.entries.filter (fun e =>
          matchesSelector [("docType", "request"), ("datatxid", k)] e.Value)))) := by
  induction keys generalizing done with
  | nil => simp [queryLoop]
  | cons k keys ih =>
    rw [queryLoop, requestQuery_reliable l k (h k (List.mem_cons_self k keys))]
    simp only [writeMembers_ok]
    rw [ih _ (fun x hx => h x (List.mem_cons_of_mem k hx)), List.flatMap_cons, List.append_assoc]

theorem getQueryListForRequests_ok (l : Ledger) (keys : List String)
    (h : ∀ k ∈ keys, plainText k) :
    getQueryListForRequests (Stub.reliable l) keys
      = .ok (renderArray (keys.flatMap (fun k => l.entries.filter (fun e =>
          matchesSelector [("docType", "request"), ("datatxid", k)] e.Value)))) := by
  have h0 : (("[", false) : String × Bool) = loopState [] := rfl
  rw [getQueryListForRequests, h0, queryLoop_ok l keys [] h]
  rfl

theorem ownerQuery_reliable (l : Ledger) (owner : String) (h : plainText owner) :
    (Stub.reliable l).GetQueryResult (ownerQueryString owner)
      = .ok ((l.entries.filter (fun e => matchesSelector
          [("docType", "data"), ("owner", owner)] e.Value)).map Except.ok) :=
  GetQueryResult_reliable l _ _
    (parseQuery_selector _ _ _ _ h (ownerQueryString_data owner))

/-- Join correctness of `showPendingRequests` for an owner and data keys that are plain
text: it succeeds, its payload is the array text of a list of entries, and those entries
are exactly the stored request records that refer to a stored data record of the
lower-cased owner. -/
theorem showPendingRequests_join (l : Ledger) (owner : String) (more : List String)
    (hplain : plainText (strings.ToLower owner))
    (hkeys : ∀ k v, l.get k = some v → isRecord "data" "owner" (strings.ToLower owner) v →
      plainText k) :
    ∃ kvs, showPendingRequests (Stub.reliable l) (owner :: more)
        = (shim.Success (some (renderArray kvs)), Stub.reliable l)
      ∧ ∀ kv, kv ∈ kvs ↔ pendingFor l (strings.ToLower owner) kv := by
  have hkeys' : ∀ k ∈ (l.entries.filter (fun e => matchesSelector
      [("docType", "data"), ("owner", strings.ToLower owner)] e.Value)).map KV.Key,
      plainText k := by
    intro k hk
    obtain ⟨e, he, rfl⟩ := List.mem_map.mp hk
    rw [List.mem_filter] at he
    exact hkeys e.Key e.Value ((l.mem_entries_iff e).mp he.1)
      ((matchesSelector_iff _ _ _ _).mp he.2)
  refine ⟨((l.entries.filter (fun e => matchesSelector
      [("docType", "data"), ("owner", strings.ToLower owner)] e.Value)).map KV.Key).flatMap
      (fun k => l.entries.filter (fun e =>
        matchesSelector [("docType", "request"), ("datatxid", k)] e.Value)), ?_, ?_⟩
  · simp only [showPendingRequests, ownerQuery_reliable l _ hplain, collectKeys_ok,
      List.nil_append, getQueryListForRequests_ok l _ hkeys']
  · intro kv
    simp only [List.mem_flatMap, List.mem_map, List.mem_filter, matchesSelector_iff,
      Ledger.mem_entries_iff, pendingFor]
    constructor
    · rintro ⟨k, ⟨e, ⟨he, hd⟩, rfl⟩, hkv, hr⟩
      exact ⟨hkv, e.Key, e.Value, he, hd, hr⟩
    · rintro ⟨hkv, dk, dv, hd, hdata, hr⟩
      exact ⟨dk, ⟨⟨dk, dv⟩, ⟨hd, hdata⟩, rfl⟩, hkv, hr⟩

set_option maxRecDepth 100000 in
/-- The join example of the spec: alice is shown "r3" and "r1", bob "r2", and an owner
without data the empty array. -/
theorem showPendingRequests_example :
    (showPendingRequests exampleStub ["alice"]).1.Payload
      = some (renderArray
          [⟨"r3", json.Marshal_request_data ⟨"request", "r3", "d1", "dave"⟩⟩,
           ⟨"r1", json.Marshal_request_data ⟨"request", "r1", "d1", "carol"⟩⟩])
    ∧ (showPendingRequests exampleStub ["Bob"]).1.Payload
      = some (renderArray [⟨"r2", json.Marshal_request_data ⟨"request", "r2", "d2", "carol"⟩⟩])
    ∧ (showPendingRequests exampleStub ["nobody"]).1 = shim.Success (some "[]") := by
  decide

set_option maxRecDepth 100000 in
/-- C6 (failing input).  The owner and the data keys are pasted into the query text as
they are.  For the owner that is one double quote the owner query is not a well-formed
document and `showPendingRequests` fails, on the empty ledger; and once alice has published
data under a key that holds a double quote, `showPendingRequests` for alice fails too,
although the query for the owner itself is answered. -/
theorem showPendingRequests_fails_on_quote :
    ownerQueryString "\"" = "\x7b\"selector\":\x7b\"docType\":\"data\",\"owner\":\"\"\"\x7d\x7d"
    ∧ (showPendingRequests (Stub.reliable Ledger.empty) ["\""]).1 = shim.Error "invalid query"
    ∧ (publishData (Stub.reliable Ledger.empty) ["d\"1", "c", "d", "t", "alice"]).1
        = shim.Success none
    ∧ (showPendingRequests
        (publishData (Stub.reliable Ledger.empty) ["d\"1", "c", "d", "t", "alice"]).2
        ["alice"]).1 = shim.Error "invalid query" := by
  decide


/-! ## Serialization -/

/-- C11 (failing input).  The `data` and the `request_data` records come back from their
bytes field for field, but the `reply` record of kind "response" with reply "ok" is
written without a reply member and comes back with an empty reply. -/
theorem reply_roundtrip_loses_reply :
    json.Unmarshal_data (json.Marshal_data ⟨"data", "d1", "c", "d", "t", "alice"⟩)
      = some ⟨"data", "d1", "c", "d", "t", "alice"⟩
    ∧ json.Unmarshal_request_data (json.Marshal_request_data ⟨"request", "r1", "d1", "carol"⟩)
      = some ⟨"request", "r1", "d1", "carol"⟩
    ∧ json.Marshal_reply ⟨"response", "resp1", "r1", "ok"⟩
      = "\x7b\"docType\":\"response\",\"name\":\"resp1\",\"requesttxid\":\"r1\"\x7d"
    ∧ json.Unmarshal_reply (json.Marshal_reply ⟨"response", "resp1", "r1", "ok"⟩)
      = some ⟨"response", "resp1", "r1", ""⟩
    ∧ json.Unmarshal_reply (json.Marshal_reply ⟨"response", "resp1", "r1", "ok"⟩)
      ≠ some ⟨"response", "resp1", "r1", "ok"⟩ := by
  decide

/-! ## Absent and self-referential requests -/

/-- C13: absence asymmetry.  On a ledger with no value at `requestRef`, `handleRequest`
with three non-empty arguments still succeeds and, for a name other than `requestRef`,
the value then stored at `name` decodes to a record of kind "response" for that name and
request key; `showDataInfo` of the absent `requestRef` fails with the message that the key
does not exist. -/
theorem handleRequest_tolerates_absent_request (l : Ledger) (name requestRef response : String)
    (h0 : name ≠ "") (h1 : requestRef ≠ "") (h2 : response ≠ "")
    (habsent : l.get requestRef = none) :
    (handleRequest (Stub.reliable l) [name, requestRef, response]).1 = shim.Success none
    ∧ (name ≠ requestRef → ∃ bytes r,
        (handleRequest (Stub.reliable l) [name, requestRef, response]).2.ledger.get name
          = some bytes
        ∧ json.Unmarshal_reply bytes = some r
        ∧ r.ObjectType = "response" ∧ r.Name = name ∧ r.RequestTxid = requestRef)
    ∧ (showDataInfo (Stub.reliable l) [requestRef]).1
        = shim.Error ("\x7b\"Error\":\"Marble does not exist: " ++ requestRef ++ "\"\x7d") := by
  rw [handleRequest_reliable l _ _ _ h0 h1 h2, showDataInfo_reliable, habsent]
  refine ⟨rfl, fun hne => ⟨json.Marshal_reply ⟨"response", name, requestRef, response⟩, _, ?_,
    unmarshal_marshal_reply _, rfl, rfl, rfl⟩, rfl⟩
  show ((l.put name _).del requestRef).get name = _
  rw [Ledger.get_del_ne _ _ _ hne, Ledger.get_put_self]

/-- Resolving the absent request "r1" under the name "resp1" on the empty ledger. -/
theorem handleRequest_tolerates_absent_request_witness :
    (handleRequest (Stub.reliable Ledger.empty) ["resp1", "r1", "ok"]).1 = shim.Success none :=
  (handleRequest_tolerates_absent_request Ledger.empty "resp1" "r1" "ok"
    (by decide) (by decide) (by decide) (by decide)).1

/-- C19: self-referential resolve.  With a non-empty key `k` used both as name and as
request key and a non-empty reply, `handleRequest` reports success on every ledger, and
the ledger it leaves holds no value at `k`: it is the ledger before without `k`, and
`showDataInfo` of `k` fails with the message that the key does not exist. -/
theorem handleRequest_self_reference (l : Ledger) (k response : String)
    (hk : k ≠ "") (hr : response ≠ "") :
    (handleRequest (Stub.reliable l) [k, k, response]).1 = shim.Success none
    ∧ (handleRequest (Stub.reliable l) [k, k, response]).2.ledger.get k = none
    ∧ (∀ k', k' ≠ k →
        (handleRequest (Stub.reliable l) [k, k, response]).2.ledger.get k' = l.get k')
    ∧ (showDataInfo (handleRequest (Stub.reliable l) [k, k, response]).2 [k]).1
        = shim.Error ("\x7b\"Error\":\"Marble does not exist: " ++ k ++ "\"\x7d") := by
  rw [handleRequest_reliable l _ _ _ hk hk hr]
  refine ⟨rfl, Ledger.get_del_self _ _, fun k' hk' => ?_, ?_⟩
  · show ((l.put k _).del k).get k' = _
    rw [Ledger.get_del_ne _ _ _ hk', Ledger.get_put_ne _ _ _ _ hk']
  · rw [showDataInfo_reliable, Ledger.get_del_self]

/-- Resolving "r1" under its own key leaves nothing at "r1". -/
theorem handleRequest_self_reference_witness :
    (handleRequest (Stub.reliable (Ledger.empty.put "r1" "x")) ["r1", "r1", "ok"]).2.ledger.get
      "r1" = none :=
  (handleRequest_self_reference (Ledger.empty.put "r1" "x") "r1" "ok"
    (by decide) (by decide)).2.1

/-! ## Dispatch -/

/-- C16: dispatch.  For a function name that is none of the five operation names `Invoke`
fails with the unknown-function error and leaves the stub as it was; for each of the five
names `Invoke` is exactly the operation of that name on the same stub and arguments. -/
theorem Invoke_dispatch (stub : Stub) (function : String) (args : List String)
    (h : function ∉ ["publishData", "showDataInfo", "showPendingRequests", "requestData",
      "handleRequest"]) :
    Invoke stub function args = (shim.Error "Received unknown function invocation", stub)
    ∧ Invoke stub "publishData" args = publishData stub args
    ∧ Invoke stub "showDataInfo" args = showDataInfo stub args
    ∧ Invoke stub "showPendingRequests" args = showPendingRequests stub args
    ∧ Invoke stub "requestData" args = requestData stub args
    ∧ Invoke stub "handleRequest" args = handleRequest stub args := by
  simp only [List.mem_cons, List.mem_singleton, List.not_mem_nil, or_false, not_or] at h
  refine ⟨?_, ?_, ?_, ?_, ?_, ?_⟩
  · simp only [Invoke, h.1, h.2.1, h.2.2.1, h.2.2.2.1, h.2.2.2.2, if_false]
  · simp [Invoke]
  · simp [Invoke]
  · simp [Invoke]
  · simp [Invoke]
  · simp [Invoke]

/-- The function name "deleteData" is unknown. -/
theorem Invoke_dispatch_witness :
    Invoke (Stub.reliable Ledger.empty) "deleteData" ["d1"]
      = (shim.Error "Received unknown function invocation", Stub.reliable Ledger.empty) :=
  (Invoke_dispatch (Stub.reliable Ledger.empty) "deleteData" ["d1"] (by decide)).1

/-! ## The two steps of handleRequest -/

/-- C15: non-atomic resolve.  When, for three non-empty arguments, the read of `requestRef`
and the write at `name` succeed and the delete of `requestRef` fails, `handleRequest`
returns the delete error, and the stub it leaves is the one after the write alone: the
response bytes are stored at `name`, and a value that was stored at `requestRef` is still
stored there (for a name other than `requestRef` the value at `requestRef` is the one
before). -/
theorem handleRequest_not_atomic (stub : Stub) (name requestRef response err : String)
    (h0 : name ≠ "") (h1 : requestRef ≠ "") (h2 : response ≠ "")
    (hget : stub.faults.GetState requestRef = none)
    (hput : stub.faults.PutState name
      (json.Marshal_reply ⟨"response", name, requestRef, response⟩) = none)
    (hdel : stub.faults.DelState requestRef = some err) :
    handleRequest stub [name, requestRef, response]
      = (shim.Error ("Failed to delete request:" ++ err),
          ⟨stub.faults, stub.ledger.put name
            (json.Marshal_reply ⟨"response", name, requestRef, response⟩)⟩)
    ∧ (handleRequest stub [name, requestRef, response]).2.ledger.get name
        = some (json.Marshal_reply ⟨"response", name, requestRef, response⟩)
    ∧ (name ≠ requestRef →
        (handleRequest stub [name, requestRef, response]).2.ledger.get requestRef
          = stub.ledger.get requestRef)
    ∧ (∀ v, stub.ledger.get requestRef = some v →
        ∃ w, (handleRequest stub [name, requestRef, response]).2.ledger.get requestRef
          = some w) := by
  have hres : handleRequest stub [name, requestRef, response]
      = (shim.Error ("Failed to delete request:" ++ err),
          ⟨stub.faults, stub.ledger.put name
            (json.Marshal_reply ⟨"response", name, requestRef, response⟩)⟩) := by
    simp [handleRequest, length_eq_zero_iff, h0, h1, h2, Stub.GetState, Stub.PutState,
      Stub.DelState, hget, hput, hdel]
  rw [hres]
  refine ⟨rfl, Ledger.get_put_self _ _ _, fun hne => ?_, fun v hv => ?_⟩
  · exact Ledger.get_put_ne _ _ _ _ (fun e => hne e.symm)
  · by_cases hne : requestRef = name
    · exact ⟨_, by rw [hne]; exact Ledger.get_put_self _ _ _⟩
    · exact ⟨v, by show (stub.ledger.put name _).get requestRef = _
                   rw [Ledger.get_put_ne _ _ _ _ hne, hv]⟩

/-- With a failing delete, resolving "r1" under "resp1" returns the delete error and leaves
both the response at "resp1" and the request at "r1". -/
theorem handleRequest_not_atomic_witness :
    (handleRequest ⟨Faults.deleteFails "unavailable", Ledger.empty.put "r1" "x"⟩
        ["resp1", "r1", "ok"]).1 = shim.Error "Failed to delete request:unavailable"
    ∧ (handleRequest ⟨Faults.deleteFails "unavailable", Ledger.empty.put "r1" "x"⟩
        ["resp1", "r1", "ok"]).2.ledger.get "resp1"
      = some (json.Marshal_reply ⟨"response", "resp1", "r1", "ok"⟩)
    ∧ (handleRequest ⟨Faults.deleteFails "unavailable", Ledger.empty.put "r1" "x"⟩
        ["resp1", "r1", "ok"]).2.ledger.get "r1" = some "x" :=
  ⟨congrArg Prod.fst (handleRequest_not_atomic
      ⟨Faults.deleteFails "unavailable", Ledger.empty.put "r1" "x"⟩ "resp1" "r1" "ok"
      "unavailable" (by decide) (by decide) (by decide) rfl rfl rfl).1,
   (handleRequest_not_atomic
      ⟨Faults.deleteFails "unavailable", Ledger.empty.put "r1" "x"⟩ "resp1" "r1" "ok"
      "unavailable" (by decide) (by decide) (by decide) rfl rfl rfl).2.1,
   ((handleRequest_not_atomic
      ⟨Faults.deleteFails "unavailable", Ledger.empty.put "r1" "x"⟩ "resp1" "r1" "ok"
      "unavailable" (by decide) (by decide) (by decide) rfl rfl rfl).2.2.1
      (by decide)).trans (by decide)⟩

/-! ## Frame -/

theorem publishData_effect (stub : Stub) (args : List String) :
    (publishData stub args).2 = stub
      ∨ ∃ name bytes, args[0]? = some name
          ∧ (publishData stub args).2 = ⟨stub.faults, stub.ledger.put name bytes⟩ := by
  unfold publishData
  split
  · rename_i a0 a1 a2 a3 a4
    split_ifs <;> try exact Or.inl rfl
    simp only [Stub.GetState, Stub.PutState]
    cases stub.faults.GetState a0 with
    | some e => exact Or.inl rfl
    | none =>
      cases stub.ledger.get a0 with
      | some w => exact Or.inl rfl
      | none =>
        simp only
        cases stub.faults.PutState a0 (json.Marshal_data
            ⟨"data", a0, a1, strings.ToLower a2, strings.ToLower a3, strings.ToLower a4⟩) with
        | some e => exact Or.inl rfl
        | none => exact Or.inr ⟨a0, _, rfl, rfl⟩
  · exact Or.inl rfl

theorem requestData_effect (stub : Stub) (args : List String) :
    (requestData stub args).2 = stub
      ∨ ∃ name bytes, args[0]? = some name
          ∧ (requestData stub args).2 = ⟨stub.faults, stub.ledger.put name bytes⟩ := by
  unfold requestData
  split
  · rename_i a0 a1 a2
    split_ifs <;> try exact Or.inl rfl
    simp only [Stub.GetState, Stub.PutState]
    cases stub.faults.GetState a1 with
    | some e => exact Or.inl rfl
    | none =>
      simp only
      cases stub.faults.PutState a0 (json.Marshal_request_data
          ⟨"request", a0, a1, strings.ToLower a2⟩) with
      | some e => exact Or.inl rfl
      | none => exact Or.inr ⟨a0, _, rfl, rfl⟩
  · exact Or.inl rfl

theorem get_of_put_effect (stub stub1 : Stub) (args : List String) (k : String)
    (h : stub1 = stub ∨ ∃ name bytes, args[0]? = some name
      ∧ stub1 = ⟨stub.faults, stub.ledger.put name bytes⟩)
    (hk : args[0]? ≠ some k) : stub1.ledger.get k = stub.ledger.get k := by
  rcases h with h | ⟨name, bytes, hn, h⟩
  · rw [h]
  · rw [h]
    exact Ledger.get_put_ne _ _ _ _ (fun e => hk (by rw [hn, e]))

theorem present_of_put_effect (stub stub1 : Stub) (args : List String) (k v : String)
    (h : stub1 = stub ∨ ∃ name bytes, args[0]? = some name
      ∧ stub1 = ⟨stub.faults, stub.ledger.put name bytes⟩)
    (hv : stub.ledger.get k = some v) : stub1.ledger.get k ≠ none := by
  rcases h with h | ⟨name, bytes, _, h⟩
  · rw [h, hv]; simp
  · rw [h]
    by_cases hk : k = name
    · rw [hk]
      show (stub.ledger.put name bytes).get name ≠ none
      rw [Ledger.get_put_self]; simp
    · show (stub.ledger.put name bytes).get k ≠ none
      rw [Ledger.get_put_ne _ _ _ _ hk, hv]; simp


/-- C18: frame.  On every stub and for all arguments, `publishData` and `requestData` leave
the value at every key other than their name argument as it was (also the absence of a
value), `handleRequest` the value at every key other than its name and its request
argument; `showDataInfo` and `showPendingRequests` leave the whole stub as it was; and
after `publishData`, `requestData`, `showDataInfo`, `showPendingRequests`, or an invocation
of any function other than `handleRequest`, every key that held a value still holds one. -/
theorem operations_frame (stub : Stub) (function : String) (args : List String)
    (k k2 : String)
    (hk : args[0]? ≠ some k)
    (hk2 : args[0]? ≠ some k2 ∧ args[1]? ≠ some k2)
    (hf : function ≠ "handleRequest") :
    (publishData stub args).2.ledger.get k = stub.ledger.get k
    ∧ (requestData stub args).2.ledger.get k = stub.ledger.get k
    ∧ (handleRequest stub args).2.ledger.get k2 = stub.ledger.get k2
    ∧ (showDataInfo stub args).2 = stub
    ∧ (showPendingRequests stub args).2 = stub
    ∧ (∀ k3, stub.ledger.get k3 ≠ none → (publishData stub args).2.ledger.get k3 ≠ none)
    ∧ (∀ k3, stub.ledger.get k3 ≠ none → (requestData stub args).2.ledger.get k3 ≠ none)
    ∧ (∀ k3, stub.ledger.get k3 ≠ none → (showDataInfo stub args).2.ledger.get k3 ≠ none)
    ∧ (∀ k3, stub.ledger.get k3 ≠ none →
        (showPendingRequests stub args).2.ledger.get k3 ≠ none)
    ∧ (∀ k3, stub.ledger.get k3 ≠ none →
        (Invoke stub function args).2.ledger.get k3 ≠ none) := by
  have hp : ∀ k3, stub.ledger.get k3 ≠ none → (publishData stub args).2.ledger.get k3 ≠ none := by
    intro k3 h3
    obtain ⟨v, hv⟩ := Option.ne_none_iff_exists'.mp h3
    exact present_of_put_effect stub _ args k3 v (publishData_effect stub args) hv
  have hr : ∀ k3, stub.ledger.get k3 ≠ none → (requestData stub args).2.ledger.get k3 ≠ none := by
    intro k3 h3
    obtain ⟨v, hv⟩ := Option.ne_none_iff_exists'.mp h3
    exact present_of_put_effect stub _ args k3 v (requestData_effect stub args) hv
  refine ⟨get_of_put_effect stub _ args k (publishData_effect stub args) hk,
    get_of_put_effect stub _ args k (requestData_effect stub args) hk,
    handleRequest_frame stub args k2 hk2.1 hk2.2, showDataInfo_stub stub args,
    showPendingRequests_stub stub args, hp, hr, ?_, ?_, ?_⟩
  · intro k3 h3
    rw [showDataInfo_stub]; exact h3
  · intro k3 h3
    rw [showPendingRequests_stub]; exact h3
  · intro k3 h3
    unfold Invoke
    split_ifs with h1 h2 h3' h4
    · exact hp k3 h3
    · rw [showDataInfo_stub]; exact h3
    · rw [showPendingRequests_stub]; exact h3
    · exact hr k3 h3
    · exact h3

/-- On the empty ledger a request "r1" for "d1" leaves "d1" without a value and writes only
"r1"; on a ledger that holds "d1", a request that is itself named "d1" still leaves a
value at "d1". -/
theorem operations_frame_witness :
    ((requestData (Stub.reliable Ledger.empty) ["r1", "d1", "bob"]).2.ledger.get "d1"
        = (Stub.reliable Ledger.empty).ledger.get "d1"
      ∧ (publishData (Stub.reliable Ledger.empty) ["r1", "c", "d", "t", "bob"]).2.ledger.get "d1"
        = (Stub.reliable Ledger.empty).ledger.get "d1")
    ∧ (Invoke (Stub.reliable (Ledger.empty.put "d1" "x")) "requestData"
        ["d1", "d2", "bob"]).2.ledger.get "d1" ≠ none :=
  ⟨⟨(operations_frame (Stub.reliable Ledger.empty) "requestData"
      ["r1", "d1", "bob"] "d1" "d2" (by decide) ⟨by decide, by decide⟩ (by decide)).2.1,
    (operations_frame (Stub.reliable Ledger.empty) "publishData"
      ["r1", "c", "d", "t", "bob"] "d1" "d2" (by decide) ⟨by decide, by decide⟩ (by decide)).1⟩,
   (operations_frame (Stub.reliable (Ledger.empty.put "d1" "x")) "requestData"
      ["d1", "d2", "bob"] "r1" "r2" (by decide) ⟨by decide, by decide⟩
      (by decide)).2.2.2.2.2.2.2.2.2 "d1" (by decide)⟩

/-! ## The array text -/

theorem intercalate_go (acc : String) (xs : List String) :
    String.intercalate.go acc "," xs
      = if xs = [] then acc else acc ++ "," ++ joinMembers xs := by
  induction xs generalizing acc with
  | nil => rfl
  | cons x xs ih =>
    rw [String.intercalate.go, ih]
    cases xs with
    | nil => simp [joinMembers]
    | cons y ys =>
      have h2 : joinMembers (x :: y :: ys) = x ++ "," ++ joinMembers (y :: ys) := rfl
      rw [h2]
      simp [String.append_assoc]

theorem joinMembers_eq_intercalate (xs : List String) :
    joinMembers xs = ",".intercalate xs := by
  cases xs with
  | nil => rfl
  | cons x xs =>
    rw [String.intercalate, intercalate_go]
    cases xs with
    | nil => simp [joinMembers]
    | cons y ys =>
      have h2 : joinMembers (x :: y :: ys) = x ++ "," ++ joinMembers (y :: ys) := rfl
      rw [h2]
      simp

theorem queryLoop_matches (stub : Stub) (keys : List String) (hits : String → List KV)
    (done : List KV)
    (h : ∀ k ∈ keys, stub.GetQueryResult (requestQueryString k)
      = .ok ((hits k).map Except.ok)) :
    queryLoop stub keys (loopState done) = .ok (loopState (done ++ keys.flatMap hits)) := by
  induction keys generalizing done with
  | nil => simp [queryLoop]
  | cons k keys ih =>
    rw [queryLoop, h k (List.mem_cons_self k keys)]
    simp only [writeMembers_ok]
    rw [ih _ (fun x hx => h x (List.mem_cons_of_mem k hx)), List.flatMap_cons, List.append_assoc]

/-- C17: join output format.  For every list of data keys and every answer of the request
query per key, `hits k` being the entries that the iterator of key `k` yields, the payload
of `getQueryListForRequests` is "[", then the members `\x7b"Key":"<key>", "Record":<value>\x7d`
of all entries in key order and then iteration order, separated by one comma each, then "]". -/
theorem getQueryListForRequests_format (stub : Stub) (keys : List String)
    (hits : String → List KV)
    (h : ∀ k ∈ keys, stub.GetQueryResult (requestQueryString k)
      = .ok ((hits k).map Except.ok)) :
    getQueryListForRequests stub keys = .ok (renderArray (keys.flatMap hits))
    ∧ renderArray (keys.flatMap hits)
        = "[" ++ ",".intercalate ((keys.flatMap hits).map (fun kv =>
            "\x7b\"Key\":\"" ++ kv.Key ++ "\", \"Record\":" ++ kv.Value ++ "\x7d")) ++ "]" := by
  constructor
  · have h0 : (("[", false) : String × Bool) = loopState [] := rfl
    rw [getQueryListForRequests, h0, queryLoop_matches stub keys hits [] h]
    rfl
  · rw [renderArray, joinMembers_eq_intercalate]
    have hm : (fun kv : KV => "\x7b\"Key\":\"" ++ kv.Key ++ "\", \"Record\":" ++ kv.Value
        ++ "\x7d") = arrayMember := by
      funext kv
      apply String.ext
      simp only [arrayMember, String.data_append, List.append_assoc]
      rfl
    rw [hm]

set_option maxRecDepth 100000 in
/-- The data keys "d1", "none" and "d2" on the ledger of the join example: two members for
"d1", none for "none", one for "d2". -/
theorem getQueryListForRequests_format_witness :
    getQueryListForRequests exampleStub ["d1", "none", "d2"]
      = .ok (renderArray
          [⟨"r3", json.Marshal_request_data ⟨"request", "r3", "d1", "dave"⟩⟩,
           ⟨"r1", json.Marshal_request_data ⟨"request", "r1", "d1", "carol"⟩⟩,
           ⟨"r2", json.Marshal_request_data ⟨"request", "r2", "d2", "carol"⟩⟩]) :=
  (getQueryListForRequests_format exampleStub ["d1", "none", "d2"]
    (fun k => exampleStub.ledger.entries.filter (fun e =>
      matchesSelector [("docType", "request"), ("datatxid", k)] e.Value))
    (fun k hk => by
      simp only [List.mem_cons, List.mem_singleton, List.not_mem_nil, or_false] at hk
      rcases hk with rfl | rfl | rfl <;> rfl)).1.trans (congrArg _ (congrArg _ (by decide)))


/-! ## Failing queries -/

theorem collectKeys_error (it : List (Except String KV)) (data_list : List String)
    (h : ∃ err, Except.error err ∈ it) : ∃ err, collectKeys it data_list = .error err := by
  induction it generalizing data_list with
  | nil =>
    obtain ⟨err, herr⟩ := h
    cases herr
  | cons x it ih =>
    cases x with
    | error e => exact ⟨e, rfl⟩
    | ok kv =>
      obtain ⟨err, herr⟩ := h
      rw [List.mem_cons] at herr
      rcases herr with herr | herr
      · cases herr
      · rw [collectKeys]
        exact ih _ ⟨err, herr⟩

theorem writeMembers_error (it : List (Except String KV)) (st : String × Bool)
    (h : ∃ err, Except.error err ∈ it) : ∃ err, writeMembers it st = .error err := by
  induction it generalizing st with
  | nil =>
    obtain ⟨err, herr⟩ := h
    cases herr
  | cons x it ih =>
    cases x with
    | error e => exact ⟨e, by rw [writeMembers]⟩
    | ok kv =>
      obtain ⟨err, herr⟩ := h
      rw [List.mem_cons] at herr
      rcases herr with herr | herr
      · cases herr
      · obtain ⟨buffer, written⟩ := st
        rw [writeMembers]
        exact ih _ ⟨err, herr⟩

theorem queryLoop_error (stub : Stub) (keys : List String) (st : String × Bool)
    (h : ∃ k ∈ keys, queryBreaks stub (requestQueryString k)) :
    ∃ err, queryLoop stub keys st = .error err := by
  induction keys generalizing st with
  | nil =>
    obtain ⟨k, hk, _⟩ := h
    cases hk
  | cons k keys ih =>
    rw [queryLoop]
    cases hq : stub.GetQueryResult (requestQueryString k) with
    | error e => exact ⟨e, rfl⟩
    | ok it =>
      simp only
      cases hw : writeMembers it st with
      | error e => exact ⟨e, rfl⟩
      | ok st1 =>
        simp only
        apply ih
        obtain ⟨k', hk', hb⟩ := h
        rw [List.mem_cons] at hk'
        rcases hk' with rfl | hk'
        · exfalso
          rcases hb with ⟨err, herr⟩ | ⟨it', err, hit', herr⟩
          · rw [hq] at herr; cases herr
          · rw [hq] at hit'
            cases hit'
            obtain ⟨e, he⟩ := writeMembers_error it st ⟨err, herr⟩
            rw [hw] at he; cases he
        · exact ⟨k', hk', hb⟩

/-- C14: the listing aborts on a query failure.  When the query for the owner's data
fails, or a step of its iterator, or, for one of the data keys collected, the query for
its requests or a step of that iterator, `showPendingRequests` returns an error without
payload, whatever was written for earlier data keys, and leaves the stub as it was. -/
theorem showPendingRequests_aborts (stub : Stub) (owner : String) (more : List String)
    (h : queryBreaks stub (ownerQueryString (strings.ToLower owner))
      ∨ ∃ resultsIterator data_list,
          stub.GetQueryResult (ownerQueryString (strings.ToLower owner)) = .ok resultsIterator
          ∧ collectKeys resultsIterator [] = .ok data_list
          ∧ ∃ k ∈ data_list, queryBreaks stub (requestQueryString k)) :
    (∃ err, showPendingRequests stub (owner :: more) = (shim.Error err, stub))
    ∧ (showPendingRequests stub (owner :: more)).1.Status = shim.ERROR
    ∧ (showPendingRequests stub (owner :: more)).1.Payload = none
    ∧ (showPendingRequests stub (owner :: more)).2 = stub := by
  have key : ∃ err, showPendingRequests stub (owner :: more) = (shim.Error err, stub) := by
    rw [showPendingRequests]
    rcases h with (⟨err, herr⟩ | ⟨it, err, hit, herr⟩) | ⟨it, keys, hit, hkeys, hk⟩
    · rw [herr]; exact ⟨err, rfl⟩
    · rw [hit]
      obtain ⟨e, he⟩ := collectKeys_error it [] ⟨err, herr⟩
      simp only [he]
      exact ⟨e, rfl⟩
    · rw [hit]
      simp only [hkeys]
      obtain ⟨e, he⟩ := queryLoop_error stub keys ("[", false) hk
      simp only [getQueryListForRequests, he]
      exact ⟨e, rfl⟩
  obtain ⟨err, herr⟩ := key
  rw [herr]
  exact ⟨⟨err, rfl⟩, rfl, rfl, rfl⟩


set_option maxRecDepth 100000 in
/-- Alice owns "d2", which has the request "r1", and "d1"; when the request query for "d1"
fails, the listing for alice is an error without payload, although the member for "r1"
was written before. -/
theorem showPendingRequests_aborts_witness :
    (showPendingRequests (Stub.reliable aliceLedger) ["alice"]).1.Payload
      = some (renderArray [⟨"r1", json.Marshal_request_data ⟨"request", "r1", "d2", "carol"⟩⟩])
    ∧ (showPendingRequests
        ⟨Faults.queryFails (requestQueryString "d1") "index down", aliceLedger⟩
        ["alice"]).1.Status = shim.ERROR
    ∧ (showPendingRequests
        ⟨Faults.queryFails (requestQueryString "d1") "index down", aliceLedger⟩
        ["alice"]).1.Payload = none :=
  ⟨by decide,
   (showPendingRequests_aborts
      ⟨Faults.queryFails (requestQueryString "d1") "index down", aliceLedger⟩ "alice" []
      (Or.inr ⟨_, ["d2", "d1"], rfl, rfl, "d1", by decide,
        Or.inl ⟨"index down", rfl⟩⟩)).2.1,
   (showPendingRequests_aborts
      ⟨Faults.queryFails (requestQueryString "d1") "index down", aliceLedger⟩ "alice" []
      (Or.inr ⟨_, ["d2", "d1"], rfl, rfl, "d1", by decide,
        Or.inl ⟨"index down", rfl⟩⟩)).2.2.1⟩


/-! ## The empty listing -/

/-- For an owner and data keys that are plain text, a listing with nothing to show
succeeds with the empty array. -/
theorem showPendingRequests_empty (l : Ledger) (owner : String) (more : List String)
    (hplain : plainText (strings.ToLower owner))
    (hkeys : ∀ k v, l.get k = some v → isRecord "data" "owner" (strings.ToLower owner) v →
      plainText k)
    (hnone : ∀ kv, ¬ pendingFor l (strings.ToLower owner) kv) :
    showPendingRequests (Stub.reliable l) (owner :: more)
      = (shim.Success (some "[]"), Stub.reliable l) := by
  obtain ⟨kvs, hres, hmem⟩ := showPendingRequests_join l owner more hplain hkeys
  have hnil : kvs = [] :=
    List.eq_nil_iff_forall_not_mem.mpr (fun kv hkv => hnone kv ((hmem kv).mp hkv))
  rw [hres, hnil]
  rfl

set_option maxRecDepth 100000 in
/-- C12 (failing input).  On the empty ledger, where no data record has any owner, and on
the ledger of the join example, where no data record has an owner with a double quote in
the name, `showPendingRequests` for the owner `nobody"` is not the empty array but an
error: the owner query is not a well-formed document. -/
theorem showPendingRequests_empty_fails_on_quote :
    (∀ kv, ¬ pendingFor Ledger.empty (strings.ToLower "Nobody\"") kv)
    ∧ strings.ToLower "Nobody\"" = "nobody\""
    ∧ parseQuery (ownerQueryString "nobody\"") = none
    ∧ (showPendingRequests (Stub.reliable Ledger.empty) ["Nobody\""]).1
        = shim.Error "invalid query"
    ∧ (showPendingRequests exampleStub ["Nobody\""]).1 = shim.Error "invalid query"
    ∧ (showPendingRequests exampleStub ["Nobody"]).1 = shim.Success (some "[]") := by
  refine ⟨fun kv h => ?_, by decide, by decide, by decide, by decide, by decide⟩
  have h1 := h.1
  simp [Ledger.get, Ledger.empty] at h1


/-! ## UTF-8 -/

theorem toNat_ofNat_of_lt (n : Nat) (h : n < 55296) : (Char.ofNat n).toNat = n := by
  have hv : n.isValidChar := Or.inl h
  unfold Char.ofNat
  rw [dif_pos hv]
  rfl

theorem char_valid (c : Char) : c.toNat < 55296 ∨ (57343 < c.toNat ∧ c.toNat < 1114112) :=
  c.valid

theorem decodeRune_encodeRune (c : Char) (rest : List Char) :
    utf8.DecodeRune (utf8.EncodeRune c ++ rest) = some (c, (utf8.EncodeRune c).length) := by
  have hv := char_valid c
  unfold utf8.EncodeRune
  split_ifs with h1 h2 h3
  · simp [utf8.DecodeRune, h1]
  · have e0 := toNat_ofNat_of_lt (192 + c.toNat / 64) (by omega)
    have e1 := toNat_ofNat_of_lt (128 + c.toNat % 64) (by omega)
    have hc : Char.ofNat ((192 + c.toNat / 64 - 192) * 64 + (128 + c.toNat % 64 - 128)) = c := by
      rw [show (192 + c.toNat / 64 - 192) * 64 + (128 + c.toNat % 64 - 128) = c.toNat by omega]
      exact Char.ofNat_toNat c
    simp only [utf8.DecodeRune, List.cons_append, List.nil_append, e0, e1, isCont, hc]
    rw [if_neg (by omega), if_pos (by omega)]
    simp
    omega
  · have e0 := toNat_ofNat_of_lt (224 + c.toNat / 4096) (by omega)
    have e1 := toNat_ofNat_of_lt (128 + c.toNat / 64 % 64) (by omega)
    have e2 := toNat_ofNat_of_lt (128 + c.toNat % 64) (by omega)
    have hc : Char.ofNat ((224 + c.toNat / 4096 - 224) * 4096
        + (128 + c.toNat / 64 % 64 - 128) * 64 + (128 + c.toNat % 64 - 128)) = c := by
      rw [show (224 + c.toNat / 4096 - 224) * 4096 + (128 + c.toNat / 64 % 64 - 128) * 64
        + (128 + c.toNat % 64 - 128) = c.toNat by omega]
      exact Char.ofNat_toNat c
    simp only [utf8.DecodeRune, List.cons_append, List.nil_append, e0, e1, e2, isCont, hc]
    rw [if_neg (by omega), if_neg (by omega), if_pos (by omega), if_pos]
    · simp
    · refine ⟨?_, ?_, ?_⟩
      · split_ifs <;> omega
      · split_ifs <;> omega
      · simp; omega
  · have e0 := toNat_ofNat_of_lt (240 + c.toNat / 262144) (by omega)
    have e1 := toNat_ofNat_of_lt (128 + c.toNat / 4096 % 64) (by omega)
    have e2 := toNat_ofNat_of_lt (128 + c.toNat / 64 % 64) (by omega)
    have e3 := toNat_ofNat_of_lt (128 + c.toNat % 64) (by omega)
    have hc : Char.ofNat ((240 + c.toNat / 262144 - 240) * 262144
        + (128 + c.toNat / 4096 % 64 - 128) * 4096 + (128 + c.toNat / 64 % 64 - 128) * 64
        + (128 + c.toNat % 64 - 128)) = c := by
      rw [show (240 + c.toNat / 262144 - 240) * 262144
        + (128 + c.toNat / 4096 % 64 - 128) * 4096 + (128 + c.toNat / 64 % 64 - 128) * 64
        + (128 + c.toNat % 64 - 128) = c.toNat by omega]
      exact Char.ofNat_toNat c
    simp only [utf8.DecodeRune, List.cons_append, List.nil_append, e0, e1, e2, e3, isCont, hc]
    rw [if_neg (by omega), if_neg (by omega), if_neg (by omega), if_pos (by omega), if_pos]
    · simp
    · refine ⟨?_, ?_, ?_, ?_⟩
      · split_ifs <;> omega
      · split_ifs <;> omega
      · simp; omega
      · simp; omega

theorem decodeFrom_skip (xs rest : List Char) :
    decodeFrom xs.length (xs ++ rest) = decodeFrom 0 rest := by
  induction xs with
  | nil => rfl
  | cons x xs ih =>
    have h : decodeFrom (xs.length + 1) (x :: (xs ++ rest))
        = decodeFrom xs.length (xs ++ rest) := by
      rw [decodeFrom]
    rw [List.length_cons, List.cons_append, h, ih]

theorem decodeFrom_encodeRune (c : Char) (rest : List Char) :
    decodeFrom 0 (utf8.EncodeRune c ++ rest) = some c :: decodeFrom 0 rest := by
  have h := decodeRune_encodeRune c rest
  have hne : ∃ b t, utf8.EncodeRune c = b :: t := by
    unfold utf8.EncodeRune
    split_ifs <;> exact ⟨_, _, rfl⟩
  obtain ⟨b, t, hbt⟩ := hne
  rw [hbt] at h ⊢
  rw [List.cons_append] at h ⊢
  rw [decodeFrom, h]
  simp only [List.length_cons, Nat.add_sub_cancel]
  rw [decodeFrom_skip]

theorem runes_bytesOf (text : String) : runes (bytesOf text) = text.data.map some := by
  unfold runes bytesOf
  simp only
  induction text.data with
  | nil => rfl
  | cons c cs ih => rw [List.flatMap_cons, decodeFrom_encodeRune, ih, List.map_cons]

theorem textOf_bytesOf (text : String) : textOf (bytesOf text) = text := by
  unfold textOf
  rw [runes_bytesOf, List.map_map]
  apply String.ext
  simp [Function.comp_def]

/-! ## encoding/json and strings.ToLower on well-formed bytes -/

theorem bytes_encodeString_bytesOf (text : String) :
    Bytes.encodeString (bytesOf text) = encodeString text := by
  unfold Bytes.encodeString encodeString
  rw [runes_bytesOf, List.flatMap_map]
  rfl

theorem bytes_encodeMembers_bytesOf (ms : List (String × String)) :
    Bytes.encodeMembers (ms.map (fun m => (m.1, bytesOf m.2))) = encodeMembers ms := by
  induction ms with
  | nil => rfl
  | cons m ms ih =>
    cases ms with
    | nil => simp [Bytes.encodeMembers, encodeMembers, bytes_encodeString_bytesOf]
    | cons m2 ms =>
      simp only [List.map_cons, Bytes.encodeMembers, encodeMembers,
        bytes_encodeString_bytesOf] at ih ⊢
      rw [ih]

theorem bytes_encodeObject_bytesOf (ms : List (String × String)) :
    Bytes.encodeObject (ms.map (fun m => (m.1, bytesOf m.2))) = bytesOf (encodeObject ms) := by
  unfold Bytes.encodeObject encodeObject
  rw [bytes_encodeMembers_bytesOf]

theorem bytes_parseDoc_bytesOf (doc : String) :
    Bytes.parseDoc (bytesOf doc)
      = (parseDoc doc).map (fun ms => ms.map (fun m => (m.1, bytesOf m.2))) := by
  unfold Bytes.parseDoc
  rw [textOf_bytesOf]

theorem bytes_parseDoc_encodeObject (ms : List (String × String)) (hne : ms ≠ []) :
    Bytes.parseDoc (Bytes.encodeObject (ms.map (fun m => (m.1, bytesOf m.2))))
      = some (ms.map (fun m => (m.1, bytesOf m.2))) := by
  rw [bytes_encodeObject_bytesOf, bytes_parseDoc_bytesOf, parseDoc_encodeObject ms hne]
  rfl

theorem runes_ascii (cs : List Char) (h : ∀ c ∈ cs, c.toNat < 128) :
    decodeFrom 0 cs = cs.map some := by
  induction cs with
  | nil => rfl
  | cons c cs ih =>
    have hc := h c (List.mem_cons_self c cs)
    rw [decodeFrom]
    simp only [utf8.DecodeRune, hc, if_true, Nat.sub_self, List.map_cons]
    rw [ih (fun x hx => h x (List.mem_cons_of_mem c hx))]

theorem lowerChar_lt (c : Char) (h : c.toNat < 128) : (lowerChar c).toNat < 128 := by
  unfold lowerChar
  split_ifs with h1
  · rw [toNat_ofNat_of_lt _ (by omega)]; omega
  · exact h

/-- The two paths of `strings.ToLower` agree: on every byte string the result is the bytes
of the lower-cased text of the string. -/
theorem bytes_ToLower_eq (s : String) :
    Bytes.strings.ToLower s = bytesOf (strings.ToLower (textOf s)) := by
  unfold Bytes.strings.ToLower
  split_ifs with h
  · rw [List.all_eq_true] at h
    have h' : ∀ c ∈ s.data, c.toNat < 128 := fun c hc => by simpa using h c hc
    have ht : textOf s = s := by
      unfold textOf runes
      rw [runes_ascii s.data h', List.map_map]
      apply String.ext
      simp [Function.comp_def]
    rw [ht]
    unfold bytesOf strings.ToLower
    congr 1
    simp only
    generalize s.data = cs at h'
    induction cs with
    | nil => rfl
    | cons c cs ih =>
      have hc := h' c (List.mem_cons_self c cs)
      have hu : unicode.ToLower c = lowerChar c := by
        unfold unicode.ToLower
        rw [if_pos (by omega)]
      have he : utf8.EncodeRune (lowerChar c) = [lowerChar c] := by
        unfold utf8.EncodeRune
        rw [if_pos (lowerChar_lt c hc)]
      rw [List.map_cons, List.map_cons, List.flatMap_cons, hu, he,
        ← ih (fun x hx => h' x (List.mem_cons_of_mem c hx))]
      rfl
  · rfl

theorem bytes_ToLower_valid (s : String) : utf8.Valid (Bytes.strings.ToLower s) :=
  ⟨_, bytes_ToLower_eq s⟩

theorem bytesOf_eq_empty (text : String) : bytesOf text = "" ↔ text = "" := by
  constructor
  · intro h
    have h1 := congrArg textOf h
    rw [textOf_bytesOf] at h1
    rw [h1]
    rfl
  · intro h
    rw [h]
    rfl

theorem bytes_unmarshal_marshal_data (d : data)
    (h : utf8.Valid d.ObjectType ∧ utf8.Valid d.Name ∧ utf8.Valid d.Content
      ∧ utf8.Valid d.Date ∧ utf8.Valid d.Time ∧ utf8.Valid d.Owner) :
    Bytes.json.Unmarshal_data (Bytes.json.Marshal_data d) = some d := by
  obtain ⟨⟨t0, h0⟩, ⟨t1, h1⟩, ⟨t2, h2⟩, ⟨t3, h3⟩, ⟨t4, h4⟩, ⟨t5, h5⟩⟩ := h
  obtain ⟨d0, d1, d2, d3, d4, d5⟩ := d
  simp only at h0 h1 h2 h3 h4 h5
  subst h0 h1 h2 h3 h4 h5
  have hp := bytes_parseDoc_encodeObject [("docType", t0), ("name", t1), ("content", t2),
    ("date", t3), ("time", t4), ("owner", t5)] (by simp)
  simp only [List.map_cons, List.map_nil] at hp
  simp [Bytes.json.Unmarshal_data, Bytes.json.Marshal_data, hp, fieldOr, docField]

theorem bytes_unmarshal_marshal_request_data (d : request_data)
    (h : utf8.Valid d.ObjectType ∧ utf8.Valid d.Name ∧ utf8.Valid d.DataTxid
      ∧ utf8.Valid d.Requestor) :
    Bytes.json.Unmarshal_request_data (Bytes.json.Marshal_request_data d) = some d := by
  obtain ⟨⟨t0, h0⟩, ⟨t1, h1⟩, ⟨t2, h2⟩, ⟨t3, h3⟩⟩ := h
  obtain ⟨d0, d1, d2, d3⟩ := d
  simp only at h0 h1 h2 h3
  subst h0 h1 h2 h3
  have hp := bytes_parseDoc_encodeObject [("docType", t0), ("name", t1), ("datatxid", t2),
    ("requestor", t3)] (by simp)
  simp only [List.map_cons, List.map_nil] at hp
  simp [Bytes.json.Unmarshal_request_data, Bytes.json.Marshal_request_data, hp, fieldOr,
    docField]

/-- On well-formed bytes the byte-level `strings.ToLower` is the one on texts. -/
theorem bytes_ToLower_bytesOf (text : String) :
    Bytes.strings.ToLower (bytesOf text) = bytesOf (strings.ToLower text) := by
  rw [bytes_ToLower_eq, textOf_bytesOf]

/-- On well-formed bytes the byte-level `json.Marshal` of a `data` value is the one on
texts. -/
theorem bytes_marshal_data_bytesOf (t0 t1 t2 t3 t4 t5 : String) :
    Bytes.json.Marshal_data
        ⟨bytesOf t0, bytesOf t1, bytesOf t2, bytesOf t3, bytesOf t4, bytesOf t5⟩
      = bytesOf (json.Marshal_data ⟨t0, t1, t2, t3, t4, t5⟩) :=
  bytes_encodeObject_bytesOf [("docType", t0), ("name", t1), ("content", t2), ("date", t3),
    ("time", t4), ("owner", t5)]

/-! ## The round trips on byte strings -/

theorem bytes_publishData_absent (l : Ledger) (a0 a1 a2 a3 a4 : String)
    (h0 : a0 ≠ "") (h1 : a1 ≠ "") (h2 : a2 ≠ "") (h3 : a3 ≠ "") (h4 : a4 ≠ "")
    (h : l.get a0 = none) :
    Bytes.publishData (Stub.reliable l) [a0, a1, a2, a3, a4]
      = (shim.Success none, Stub.reliable (l.put a0 (Bytes.json.Marshal_data
          ⟨"data", a0, a1, Bytes.strings.ToLower a2, Bytes.strings.ToLower a3,
            Bytes.strings.ToLower a4⟩))) := by
  simp [Bytes.publishData, length_eq_zero_iff, h0, h1, h2, h3, h4, Stub.GetState,
    Stub.PutState, Stub.reliable, Faults.none, h]

theorem bytes_requestData_reliable (l : Ledger) (name dataRef requestor : String)
    (h0 : name ≠ "") (h1 : dataRef ≠ "") (h2 : requestor ≠ "") :
    Bytes.requestData (Stub.reliable l) [name, dataRef, requestor]
      = (shim.Success none, Stub.reliable (l.put name (Bytes.json.Marshal_request_data
          ⟨"request", name, dataRef, Bytes.strings.ToLower requestor⟩))) := by
  simp [Bytes.requestData, length_eq_zero_iff, h0, h1, h2, Stub.GetState, Stub.PutState,
    Stub.reliable, Faults.none]

set_option maxRecDepth 100000 in
/-- C2 (counterexample).  The content argument that is the one byte `FF` is not well-formed
UTF-8.  `publishData` succeeds with it on the empty ledger, but `json.Marshal` writes the
escape of U+FFFD in its place, so the bytes shown for "d1" decode to a record whose content
is the three bytes `EF BF BD` of U+FFFD, not the byte `FF` that was published. -/
theorem publishData_content_not_verbatim :
    (Bytes.publishData (Stub.reliable Ledger.empty) ["d1", "\xff", "D", "T", "Alice"]).1
      = shim.Success none
    ∧ (showDataInfo
        (Bytes.publishData (Stub.reliable Ledger.empty) ["d1", "\xff", "D", "T", "Alice"]).2
        ["d1"]).1.Payload.bind Bytes.json.Unmarshal_data
      = some ⟨"data", "d1", "\xef\xbf\xbd", "d", "t", "alice"⟩
    ∧ (showDataInfo
        (Bytes.publishData (Stub.reliable Ledger.empty) ["d1", "\xff", "D", "T", "Alice"]).2
        ["d1"]).1.Payload.bind Bytes.json.Unmarshal_data
      ≠ some ⟨"data", "d1", "\xff", Bytes.strings.ToLower "D", Bytes.strings.ToLower "T",
          Bytes.strings.ToLower "Alice"⟩ := by
  decide

/-- C2 (amended): publish/inspect round trip.  On every ledger with no value at `name`
and for five non-empty arguments of which the name and the content are well-formed UTF-8,
`publishData` succeeds, and `showDataInfo` of `name` then succeeds with bytes that decode
to the data record of kind "data" with that name and content and the lower-cased date,
time and owner (whatever bytes these three arguments are). -/
theorem publishData_roundtrip_wellformed (l : Ledger) (name content date time owner : String)
    (h0 : name ≠ "") (h1 : content ≠ "") (h2 : date ≠ "") (h3 : time ≠ "") (h4 : owner ≠ "")
    (hname : utf8.Valid name) (hcontent : utf8.Valid content)
    (habsent : l.get name = none) :
    (Bytes.publishData (Stub.reliable l) [name, content, date, time, owner]).1
      = shim.Success none
    ∧ ∃ bytes,
        (showDataInfo (Bytes.publishData (Stub.reliable l) [name, content, date, time, owner]).2
          [name]).1 = shim.Success (some bytes)
        ∧ Bytes.json.Unmarshal_data bytes
          = some ⟨"data", name, content, Bytes.strings.ToLower date,
              Bytes.strings.ToLower time, Bytes.strings.ToLower owner⟩ := by
  rw [bytes_publishData_absent l _ _ _ _ _ h0 h1 h2 h3 h4 habsent]
  have hkind : utf8.Valid "data" := ⟨"data", by decide⟩
  refine ⟨rfl, _, ?_, bytes_unmarshal_marshal_data _ ⟨hkind, hname, hcontent,
    bytes_ToLower_valid _, bytes_ToLower_valid _, bytes_ToLower_valid _⟩⟩
  rw [showDataInfo_reliable, Ledger.get_put_self]

set_option maxRecDepth 100000 in
/-- Publishing "d1" with a content and an owner beyond ASCII, given by their UTF-8 bytes:
the record read back has the content as published and the owner in lower case. -/
theorem publishData_roundtrip_wellformed_witness :
    (∃ bytes,
      (showDataInfo (Bytes.publishData (Stub.reliable Ledger.empty)
          ["d1", bytesOf "\u00c9t\u00e9 <1>", "2020-01-01T10", "10:00Z", bytesOf "\u00c9COLE"]).2
        ["d1"]).1 = shim.Success (some bytes)
      ∧ Bytes.json.Unmarshal_data bytes
        = some ⟨"data", "d1", bytesOf "\u00c9t\u00e9 <1>",
            Bytes.strings.ToLower "2020-01-01T10", Bytes.strings.ToLower "10:00Z",
            Bytes.strings.ToLower (bytesOf "\u00c9COLE")⟩)
    ∧ Bytes.strings.ToLower "2020-01-01T10" = "2020-01-01t10"
    ∧ Bytes.strings.ToLower (bytesOf "\u00c9COLE") = bytesOf "\u00e9cole" :=
  ⟨(publishData_roundtrip_wellformed Ledger.empty "d1" (bytesOf "\u00c9t\u00e9 <1>")
      "2020-01-01T10" "10:00Z" (bytesOf "\u00c9COLE")
      (by decide) (by decide) (by decide) (by decide) (by decide)
      ⟨"d1", by decide⟩ ⟨"\u00c9t\u00e9 <1>", rfl⟩ (by decide)).2,
    by decide, by decide⟩

set_option maxRecDepth 100000 in
/-- C7 (counterexample).  The data reference that is the one byte `FF` is not well-formed
UTF-8.  `requestData` succeeds with it, but the bytes shown for "r9" decode to a record
whose data reference is the three bytes `EF BF BD` of U+FFFD, not the byte `FF`. -/
theorem requestData_reference_not_verbatim :
    (Bytes.requestData (Stub.reliable Ledger.empty) ["r9", "\xff", "Carol"]).1
      = shim.Success none
    ∧ (showDataInfo
        (Bytes.requestData (Stub.reliable Ledger.empty) ["r9", "\xff", "Carol"]).2
        ["r9"]).1.Payload.bind Bytes.json.Unmarshal_request_data
      = some ⟨"request", "r9", "\xef\xbf\xbd", "carol"⟩
    ∧ (showDataInfo
        (Bytes.requestData (Stub.reliable Ledger.empty) ["r9", "\xff", "Carol"]).2
        ["r9"]).1.Payload.bind Bytes.json.Unmarshal_request_data
      ≠ some ⟨"request", "r9", "\xff", Bytes.strings.ToLower "Carol"⟩ := by
  decide

/-- C7 (amended): `requestData` is a lenient upsert.  On every ledger, whatever is stored at
`dataRef` or at `name`, and for three non-empty arguments of which the name and the data
reference are well-formed UTF-8, `requestData` succeeds, and `showDataInfo` of `name` then
succeeds with bytes that decode to the request record of kind "request" with that name
and data reference and the lower-cased requestor (whatever bytes that argument is). -/
theorem requestData_upsert_wellformed (l : Ledger) (name dataRef requestor : String)
    (h0 : name ≠ "") (h1 : dataRef ≠ "") (h2 : requestor ≠ "")
    (hname : utf8.Valid name) (href : utf8.Valid dataRef) :
    (Bytes.requestData (Stub.reliable l) [name, dataRef, requestor]).1 = shim.Success none
    ∧ ∃ bytes,
        (showDataInfo (Bytes.requestData (Stub.reliable l) [name, dataRef, requestor]).2
          [name]).1 = shim.Success (some bytes)
        ∧ Bytes.json.Unmarshal_request_data bytes
          = some ⟨"request", name, dataRef, Bytes.strings.ToLower requestor⟩ := by
  rw [bytes_requestData_reliable l _ _ _ h0 h1 h2]
  have hkind : utf8.Valid "request" := ⟨"request", by decide⟩
  refine ⟨rfl, _, ?_, bytes_unmarshal_marshal_request_data _ ⟨hkind, hname,
    href, bytes_ToLower_valid _⟩⟩
  rw [showDataInfo_reliable, Ledger.get_put_self]

set_option maxRecDepth 100000 in
/-- A request "r9" by a requestor beyond ASCII for a data key that does not exist, on a
ledger that already holds a value at "r9": the record read back has the requestor in
lower case. -/
theorem requestData_upsert_wellformed_witness :
    (∃ bytes,
      (showDataInfo (Bytes.requestData (Stub.reliable (Ledger.empty.put "r9" "x"))
          ["r9", "does-not-exist", bytesOf "\u00c9lodie"]).2 ["r9"]).1
        = shim.Success (some bytes)
      ∧ Bytes.json.Unmarshal_request_data bytes
        = some ⟨"request", "r9", "does-not-exist",
            Bytes.strings.ToLower (bytesOf "\u00c9lodie")⟩)
    ∧ Bytes.strings.ToLower (bytesOf "\u00c9lodie") = bytesOf "\u00e9lodie" :=
  ⟨(requestData_upsert_wellformed (Ledger.empty.put "r9" "x") "r9" "does-not-exist"
      (bytesOf "\u00c9lodie") (by decide) (by decide) (by decide)
      ⟨"r9", by decide⟩ ⟨"does-not-exist", by decide⟩).2,
    by decide⟩

end DataSharing
